import Mathlib

/-!
Verification of the Fashion-Scraper repository (webscraper.py, server.py).

Strings are modelled as `List Char` (the scraper only manipulates text at the
character level).  Python `int` values are `Int`/`Nat`; the embedding is
total, with Python exceptions modelled by `Except` and Python `None` /
missing values by `Option`.  Scope notes for the shallow embedding:
- character classes (whitespace, case mapping, digits) are modelled over
  ASCII, which covers every constant appearing in the source;
- JSON numbers are restricted to integer literals (the repository's price
  and brand logic never relies on float parsing, which is out of scope);
- element geometry (widths/heights) is modelled with naturals, vertical
  offsets with integers.
-/

abbrev Str := List Char

/-- Python whitespace for str.strip(): space, \t, \n, \r, \x0b, \x0c. -/
def pyIsSpace (c : Char) : Bool :=
  c = ' ' || c = '\t' || c = '\n' || c = '\r' || c = '\x0b' || c = '\x0c'

/-- ASCII lower-casing of a character, as in str.lower(). -/
def lowChar (c : Char) : Char := c.toLower

/-- ASCII upper-casing of a character, as in str.upper(). -/
def upChar (c : Char) : Char := c.toUpper

/-- str.lower() over the modelled string. -/
def lowerStr (s : Str) : Str := s.map lowChar

/-- str.upper() over the modelled string. -/
def upperStr (s : Str) : Str := s.map upChar

/-- str.strip(): drop leading and trailing Python whitespace. -/
def pyStrip (s : Str) : Str :=
  ((s.dropWhile pyIsSpace).reverse.dropWhile pyIsSpace).reverse

/-- Whether the first list starts with the second (str.startswith). -/
def startsWith (pat s : Str) : Bool :=
  decide (pat <+: s)

/-- Whether the first list ends with the second (str.endswith). -/
def endsWith (pat s : Str) : Bool :=
  startsWith pat.reverse s.reverse

/-- Python substring membership, `pat in s`. -/
def hasSub (pat s : Str) : Bool :=
  match s with
  | [] => startsWith pat []
  | _ :: t => startsWith pat s || hasSub pat t

/-- Fuel-bounded body of replaceAll (each step consumes at least one
character, so fuel = length is always enough). -/
def replaceAllAux (pat rep : Str) : Nat → Str → Str
  | 0, s => s
  | _ + 1, [] => []
  | fu + 1, c :: t =>
    if startsWith pat (c :: t) && !pat.isEmpty then
      rep ++ replaceAllAux pat rep fu (t.drop (pat.length - 1))
    else
      c :: replaceAllAux pat rep fu t

/-- str.replace(old, new) with non-empty old: scan left to right, replacing
non-overlapping occurrences and never rescanning replaced text. -/
def replaceAll (pat rep s : Str) : Str :=
  replaceAllAux pat rep s.length s

/-- s.split(sep)[0]: everything before the first occurrence of a separator
character (the whole string when the separator is absent). -/
def takeUntilChar (sep : Char) (s : Str) : Str :=
  s.takeWhile (· ≠ sep)

/-- str.split(sep) for a single-character separator. -/
def splitCharAux (sep : Char) : Str → Str → List Str
  | [], acc => [acc.reverse]
  | c :: t, acc =>
    if c = sep then acc.reverse :: splitCharAux sep t []
    else splitCharAux sep t (c :: acc)

/-- str.split(sep) for a single-character separator. -/
def splitChar (sep : Char) (s : Str) : List Str := splitCharAux sep s []

/-- s.split(sep)[-1] for a character separator. -/
def lastSeg (sep : Char) (s : Str) : Str :=
  (splitChar sep s).getLastD []

/-- str.title() over ASCII: an alphabetic character is upper-cased when the
previous character is not alphabetic, lower-cased otherwise. -/
def pyTitleAux : Bool → Str → Str
  | _, [] => []
  | prevAlpha, c :: t =>
    if c.isAlpha then
      (if prevAlpha then lowChar c else upChar c) :: pyTitleAux true t
    else
      c :: pyTitleAux false t

/-- str.title(). -/
def pyTitle (s : Str) : Str := pyTitleAux false s

/-- Decimal representation of an integer, as Python str(int). -/
def intRepr (n : Int) : Str :=
  if n < 0 then '-' :: (Nat.toDigits 10 n.natAbs) else Nat.toDigits 10 n.toNat

/-- JSON values as produced by json.loads, restricted to integer numbers. -/
inductive Json where
  | null
  | bool (b : Bool)
  | num (n : Int)
  | str (s : Str)
  | arr (xs : List Json)
  | obj (kvs : List (Str × Json))

abbrev JsonObj := List (Str × Json)

/-- dict lookup: d.get(k), none when the key is absent. -/
def dget (d : JsonObj) (k : Str) : Option Json :=
  match d with
  | [] => none
  | (k', v) :: rest => if k' = k then some v else dget rest k

/-- dict assignment d[k] = v: overwrite in place when the key exists
(keeping its position, as Python dicts do), append otherwise. -/
def dset (d : JsonObj) (k : Str) (v : Json) : JsonObj :=
  match d with
  | [] => [(k, v)]
  | (k', v') :: rest => if k' = k then (k, v) :: rest else (k', v') :: dset rest k v

/-- Python truthiness of a JSON value: None, False, 0, "", [] and an empty
dict are falsy, everything else truthy. -/
def jtruthy : Json → Bool
  | Json.null => false
  | Json.bool b => b
  | Json.num n => n ≠ 0
  | Json.str s => !s.isEmpty
  | Json.arr xs => !xs.isEmpty
  | Json.obj kvs => !kvs.isEmpty

/-- Truthiness of a dict lookup result (missing keys are falsy). -/
def jtruthyOpt : Option Json → Bool
  | none => false
  | some v => jtruthy v

mutual

/-- Python repr() of a JSON value (strings in single quotes; the
quote-escaping corner of repr is outside the inputs this file evaluates). -/
def pyRepr : Json → Str
  | Json.null => "None".data
  | Json.bool b => if b then "True".data else "False".data
  | Json.num n => intRepr n
  | Json.str s => '\x27' :: (s ++ ['\x27'])
  | Json.arr xs => '[' :: (pyReprList xs ++ [']'])
  | Json.obj kvs => '\x7b' :: (pyReprPairs kvs ++ ['\x7d'])

/-- Comma-separated repr of list elements. -/
def pyReprList : List Json → Str
  | [] => []
  | [x] => pyRepr x
  | x :: y :: t => pyRepr x ++ (", ".data ++ pyReprList (y :: t))

/-- Comma-separated repr of dict entries. -/
def pyReprPairs : JsonObj → Str
  | [] => []
  | [(k, v)] => ('\x27' :: (k ++ ('\x27' :: (": ".data ++ pyRepr v))))
  | (k, v) :: p :: t =>
    ('\x27' :: (k ++ ('\x27' :: (": ".data ++ pyRepr v)))) ++ (", ".data ++ pyReprPairs (p :: t))

end

/-- Python str() of a JSON value: identity on strings, repr-like rendering
on everything else (str(None) = "None", str(True) = "True", ...). -/
def pyStr : Json → Str
  | Json.str s => s
  | Json.null => "None".data
  | Json.bool b => if b then "True".data else "False".data
  | Json.num n => intRepr n
  | Json.arr xs => pyRepr (Json.arr xs)
  | Json.obj kvs => pyRepr (Json.obj kvs)

/-- JSON whitespace accepted by json.loads. -/
def jsonWs (c : Char) : Bool := c = ' ' || c = '\t' || c = '\n' || c = '\r'

/-- Drop leading JSON whitespace. -/
def pSkipWs (s : Str) : Str := s.dropWhile jsonWs

/-- Parse the remainder of a JSON string after the opening quote, handling
the simple escapes; \uXXXX escapes are outside scope and fail the parse. -/
def pStrChars : Str → Option (Str × Str)
  | [] => none
  | '"' :: r => some ([], r)
  | '\\' :: e :: r =>
    (fun (o : Option Char) => o.bind fun c =>
      (pStrChars r).map fun p => (c :: p.1, p.2))
    (match e with
     | '"' => some '"'
     | '\\' => some '\\'
     | '/' => some '/'
     | 'n' => some '\n'
     | 't' => some '\t'
     | 'r' => some '\r'
     | 'b' => some '\x08'
     | 'f' => some '\x0c'
     | _ => none)
  | c :: r => (pStrChars r).map fun p => (c :: p.1, p.2)

/-- Value of a string of decimal digits. -/
def digitsVal (ds : Str) : Nat :=
  ds.foldl (fun a c => a * 10 + (c.toNat - 48)) 0

/-- Parse an integer JSON number (floats are outside scope; a fractional
part or exponent fails the parse). -/
def pNum (s : Str) : Option (Json × Str) :=
  let neg := startsWith ['-'] s
  let s1 := if neg then s.drop 1 else s
  let ds := s1.takeWhile Char.isDigit
  let rest := s1.dropWhile Char.isDigit
  if ds.isEmpty then none
  else
    match rest with
    | '.' :: _ => none
    | 'e' :: _ => none
    | 'E' :: _ => none
    | _ =>
      some (Json.num (if neg then -(digitsVal ds : Int) else (digitsVal ds : Int)), rest)

/-- A partially-built JSON container on the parser stack. -/
inductive PFrame where
  | inArr (acc : List Json)
  | inObj (acc : JsonObj) (k : Str)

/-- Parse an object key and its following colon. -/
def pKeyColon (s : Str) : Option (Str × Str) :=
  match pSkipWs s with
  | '"' :: r =>
    (pStrChars r).bind fun p =>
      match pSkipWs p.2 with
      | ':' :: r2 => some (p.1, r2)
      | _ => none
  | _ => none

/-- The json.loads parser as a fuel-bounded stack machine.  `Sum.inl s`
expects a value at s; `Sum.inr (v, s)` folds a finished value into the top
stack frame.  Duplicate object keys keep the last value, as Python does. -/
def pRun : Nat → List PFrame → Sum Str (Json × Str) → Option (Json × Str)
  | 0, _, _ => none
  | fu + 1, stk, Sum.inl s =>
    (match pSkipWs s with
     | [] => none
     | '"' :: r =>
       (pStrChars r).bind fun p => pRun fu stk (Sum.inr (Json.str p.1, p.2))
     | '[' :: r =>
       (match pSkipWs r with
        | ']' :: r2 => pRun fu stk (Sum.inr (Json.arr [], r2))
        | _ => pRun fu (PFrame.inArr [] :: stk) (Sum.inl r))
     | '\x7b' :: r =>
       (match pSkipWs r with
        | '\x7d' :: r2 => pRun fu stk (Sum.inr (Json.obj [], r2))
        | _ =>
          (pKeyColon r).bind fun p =>
            pRun fu (PFrame.inObj [] p.1 :: stk) (Sum.inl p.2))
     | 't' :: r =>
       if startsWith "rue".data r then pRun fu stk (Sum.inr (Json.bool true, r.drop 3))
       else none
     | 'f' :: r =>
       if startsWith "alse".data r then pRun fu stk (Sum.inr (Json.bool false, r.drop 4))
       else none
     | 'n' :: r =>
       if startsWith "ull".data r then pRun fu stk (Sum.inr (Json.null, r.drop 3))
       else none
     | s2 => (pNum s2).bind fun p => pRun fu stk (Sum.inr (p.1, p.2)))
  | fu + 1, stk, Sum.inr (v, s) =>
    match stk with
    | [] => some (v, s)
    | PFrame.inArr acc :: stk2 =>
      (match pSkipWs s with
       | ',' :: r => pRun fu (PFrame.inArr (v :: acc) :: stk2) (Sum.inl r)
       | ']' :: r => pRun fu stk2 (Sum.inr (Json.arr (v :: acc).reverse, r))
       | _ => none)
    | PFrame.inObj acc k :: stk2 =>
      (match pSkipWs s with
       | ',' :: r =>
         (pKeyColon r).bind fun p =>
           pRun fu (PFrame.inObj (dset acc k v) p.1 :: stk2) (Sum.inl p.2)
       | '\x7d' :: r => pRun fu stk2 (Sum.inr (Json.obj (dset acc k v), r))
       | _ => none)

/-- json.loads: parse one JSON document, allowing surrounding whitespace
and rejecting trailing data. -/
def pyJsonLoads (s : Str) : Option Json :=
  match pRun (s.length + 1) [] (Sum.inl s) with
  | some (v, rest) => if (pSkipWs rest).isEmpty then some v else none
  | none => none

/-- The double parse attempt of the source: json.loads(block), and on
failure json.loads(block.strip()) — str.strip also removes \x0b/\x0c,
which json.loads does not skip. -/
def pyLoadsTwice (b : Str) : Option Json :=
  match pyJsonLoads b with
  | some v => some v
  | none => pyJsonLoads (pyStrip b)

/-- The type attribute the JSON-LD block regex requires in the open tag. -/
def ldTypeLit : Str := "type=\"application/ld+json\"".data

/-- Split at the first occurrence of a pattern (part before, part after). -/
def splitAtSub (pat : Str) : Str → Option (Str × Str)
  | [] => if pat.isEmpty then some ([], []) else none
  | c :: t =>
    if startsWith pat (c :: t) then some ([], (c :: t).drop pat.length)
    else (splitAtSub pat t).map fun p => (c :: p.1, p.2)

/-- The findall over the JSON-LD block regex: successive non-overlapping
leftmost matches of an open script tag whose attribute segment (everything
before the first >) contains the ld+json type, capturing minimally up to
the closing tag.  A failed start position advances the scan by one. -/
def findLdBlocks : Nat → Str → List Str
  | 0, _ => []
  | _ + 1, [] => []
  | fu + 1, c :: t =>
    if startsWith "<script".data (c :: t) then
      match splitAtSub ['>'] ((c :: t).drop 7) with
      | none => findLdBlocks fu t
      | some seg =>
        if hasSub ldTypeLit seg.1 then
          match splitAtSub "</script>".data seg.2 with
          | some body => body.1 :: findLdBlocks fu body.2
          | none => findLdBlocks fu t
        else findLdBlocks fu t
    else findLdBlocks fu t

/-- All JSON-LD block bodies of a page, in document order. -/
def ldJsonBlocks (html : Str) : List Str := findLdBlocks (html.length + 1) html

/-- The inner loop of extract_brand_from_jsonld over a top-level JSON-LD
array: the first dict containing a "brand" key returns its brand (reading
"name" when the brand is itself a dict), even when that value is falsy. -/
def scanBrandItems : List Json → Option Json
  | [] => none
  | Json.obj kvs :: rest =>
    (match dget kvs "brand".data with
     | some br =>
       some (match br with
             | Json.obj bk => (dget bk "name".data).getD Json.null
             | _ => br)
     | none => scanBrandItems rest)
  | _ :: rest => scanBrandItems rest

/-- The block loop of extract_brand_from_jsonld: a parse failure skips the
block; a dict with a truthy "brand" ends the scan; a falsy brand in a dict
falls through to the next block; an array is scanned by scanBrandItems. -/
def scanBrand : List (Option Json) → Json
  | [] => Json.null
  | b :: rest =>
    match b with
    | some (Json.obj kvs) =>
      (match dget kvs "brand".data with
       | some br =>
         if jtruthy br then
           match br with
           | Json.obj bk => (dget bk "name".data).getD Json.null
           | _ => br
         else scanBrand rest
       | none => scanBrand rest)
    | some (Json.arr items) =>
      (match scanBrandItems items with
       | some v => v
       | none => scanBrand rest)
    | _ => scanBrand rest

/-- extract_brand_from_jsonld: read a brand from the page's JSON-LD blocks;
Json.null models the Python None result. -/
def extract_brand_from_jsonld (html : Str) : Json :=
  scanBrand ((ldJsonBlocks html).map pyLoadsTwice)

/-- Characters urlparse allows in a scheme after the initial letter. -/
def schemeChar (c : Char) : Bool :=
  c.isAlphanum || c = '+' || c = '-' || c = '.'

/-- Drop a leading "scheme:" from a URL when a valid scheme is present. -/
def dropScheme (url : Str) : Str :=
  let before := takeUntilChar ':' url
  if decide (before.length < url.length) && !before.isEmpty &&
     (before.headD ' ').isAlpha && before.all schemeChar then
    url.drop (before.length + 1)
  else url

/-- urlparse(url).hostname or "": the lowercased host of the netloc
(userinfo and port removed; IPv6 brackets are outside scope). -/
def hostnameOf (url : Str) : Str :=
  let rest := dropScheme url
  if startsWith "//".data rest then
    let netloc := (rest.drop 2).takeWhile fun c => c ≠ '/' && c ≠ '?' && c ≠ '#'
    let afterAt := (splitChar '@' netloc).getLastD []
    lowerStr (takeUntilChar ':' afterAt)
  else []

/-- The domain-based brand fallback of detect_brand: remove every "www."
occurrence, take the segment before the first dot, strip the literal
fragments uk/us/eu/co/shop in that order, strip whitespace, title-case. -/
def domainFallback (url : Str) : Str :=
  let domain := replaceAll "www.".data [] (hostnameOf url)
  let first := takeUntilChar '.' domain
  let first := replaceAll "shop".data []
    (replaceAll "co".data []
      (replaceAll "eu".data []
        (replaceAll "us".data []
          (replaceAll "uk".data [] first))))
  pyTitle (pyStrip first)

/-- detect_brand: the JSON-LD brand when truthy (calling .strip() on it,
an AttributeError — modelled as Except.error — when it is not a string),
the domain fallback otherwise. -/
def detect_brand (url html : Str) : Except Unit Str :=
  let brand := extract_brand_from_jsonld html
  if jtruthy brand then
    match brand with
    | Json.str s => Except.ok (pyStrip s)
    | _ => Except.error ()
  else Except.ok (domainFallback url)

/-- The \s class of the price regexes, over ASCII. -/
def reWs (c : Char) : Bool :=
  c = ' ' || c = '\t' || c = '\n' || c = '\r' || c = '\x0b' || c = '\x0c'

/-- Match, at the current position, the shape of the quoted-value price
patterns: "KEY" \s* : \s* " then a non-empty capture of non-quote
characters, then the closing quote. -/
def matchKeyQuoted (key : Str) (s : Str) : Option Str :=
  if startsWith ('"' :: (key ++ ['"'])) s then
    let r := (s.drop (key.length + 2)).dropWhile reWs
    match r with
    | ':' :: r2 =>
      (match r2.dropWhile reWs with
       | '"' :: r4 =>
         let cap := r4.takeWhile (· ≠ '"')
         let rest := r4.dropWhile (· ≠ '"')
         if !cap.isEmpty && startsWith ['"'] rest then some cap else none
       | _ => none)
    | _ => none
  else none

/-- Match, at the current position, the unquoted numeric price pattern
"price":\s*([0-9]+\.[0-9]+). -/
def matchPriceNum (s : Str) : Option Str :=
  if startsWith "\"price\":".data s then
    let r := (s.drop 8).dropWhile reWs
    let d1 := r.takeWhile Char.isDigit
    let r2 := r.dropWhile Char.isDigit
    if d1.isEmpty then none
    else
      match r2 with
      | '.' :: r3 =>
        let d2 := r3.takeWhile Char.isDigit
        if d2.isEmpty then none else some (d1 ++ ('.' :: d2))
      | _ => none
  else none

/-- A currency symbol of the generic value pattern. -/
def curSym (c : Char) : Bool := c = '£' || c = '$' || c = '€'

/-- A character of the numeric body of the generic value pattern. -/
def curNumChar (c : Char) : Bool := c.isDigit || c = '.' || c = ','

/-- Match, at the current position, the generic currency-symbol value
pattern "value"\s*:\s*"([£$€][0-9\.,]+)". -/
def matchValueCur (s : Str) : Option Str :=
  if startsWith "\"value\"".data s then
    let r := (s.drop 7).dropWhile reWs
    match r with
    | ':' :: r2 =>
      (match r2.dropWhile reWs with
       | '"' :: sym :: r4 =>
         if curSym sym then
           let cap := r4.takeWhile curNumChar
           let rest := r4.dropWhile curNumChar
           if !cap.isEmpty && startsWith ['"'] rest then some (sym :: cap) else none
         else none
       | _ => none)
    | _ => none
  else none

/-- re.search: the leftmost position where the matcher succeeds. -/
def searchPat (m : Str → Option Str) : Str → Option Str
  | [] => m []
  | c :: t =>
    match m (c :: t) with
    | some v => some v
    | none => searchPat m t

/-- The ordered pattern list of extract_price_from_scripts. -/
def pricePatterns : List (Str → Option Str) :=
  [matchKeyQuoted "price".data, matchPriceNum,
   matchKeyQuoted "nowPrice".data, matchKeyQuoted "salePrice".data,
   matchKeyQuoted "unitPrice".data, matchKeyQuoted "currentPrice".data,
   matchKeyQuoted "regularPrice".data, matchValueCur]

/-- The pattern loop: the first pattern in list order with a match wins. -/
def tryPatterns : List (Str → Option Str) → Str → Option Str
  | [], _ => none
  | p :: ps, h =>
    match searchPat p h with
    | some v => some v
    | none => tryPatterns ps h

/-- read_price of extract_price_from_scripts: str(offers["price"]) when the
argument is a dict whose "offers" value is a dict containing "price" (the
offers value is read only when it is a dict — never when it is a list). -/
def read_price : Json → Option Str
  | Json.obj kvs =>
    (match dget kvs "offers".data with
     | some (Json.obj os) =>
       (match dget os "price".data with
        | some p => some (pyStr p)
        | none => none)
     | _ => none)
  | _ => none

/-- The per-item loop over a top-level JSON-LD array: the first item with a
truthy read_price result wins. -/
def ldOffersItems : List Json → Option Str
  | [] => none
  | it :: rest =>
    match read_price it with
    | some p => if !p.isEmpty then some p else ldOffersItems rest
    | none => ldOffersItems rest

/-- The block loop of the offers fallback: a parse failure skips the block;
a dict with a truthy read_price ends the scan; a list is scanned item by
item. -/
def ldOffersScan : List (Option Json) → Option Str
  | [] => none
  | b :: rest =>
    match b with
    | some (Json.obj kvs) =>
      (match read_price (Json.obj kvs) with
       | some p => if !p.isEmpty then some p else ldOffersScan rest
       | none => ldOffersScan rest)
    | some (Json.arr items) =>
      (match ldOffersItems items with
       | some p => some p
       | none => ldOffersScan rest)
    | _ => ldOffersScan rest

/-- extract_price_from_scripts: the ordered regex cascade, then the JSON-LD
offers fallback, then absence. -/
def extract_price_from_scripts (html : Str) : Option Str :=
  match tryPatterns pricePatterns html with
  | some v => some v
  | none => ldOffersScan ((ldJsonBlocks html).map pyLoadsTwice)

/-- Modelled from the claim wording of C7 (not from the source): the offers
fallback "handling both an offers object and an array of offers objects" —
an offers value that is an array is scanned for its first object holding a
price. -/
def claimOffersOf : Json → Option Str
  | Json.obj kvs =>
    (match dget kvs "offers".data with
     | some (Json.obj os) =>
       (match dget os "price".data with
        | some p => some (pyStr p)
        | none => none)
     | some (Json.arr items) =>
       items.findSome? fun it =>
         match it with
         | Json.obj os =>
           (match dget os "price".data with
            | some p => some (pyStr p)
            | none => none)
         | _ => none
     | _ => none)
  | _ => none

/-- Modelled from the claim wording of C7: pattern cascade, then the
offers fallback with offers arrays handled. -/
def claimPriceOf (html : Str) : Option Str :=
  match tryPatterns pricePatterns html with
  | some v => some v
  | none =>
    ((ldJsonBlocks html).map pyLoadsTwice).findSome? fun b =>
      match b with
      | some d => claimOffersOf d
      | none => none

/-- The fixed size vocabulary VALID_SIZE_WORDS. -/
def VALID_SIZE_WORDS : List Str :=
  ["XXXS".data, "XXS".data, "XS".data, "S".data, "M".data, "L".data,
   "XL".data, "XXL".data, "XXXL".data,
   "3XL".data, "4XL".data, "5XL".data,
   "ONE SIZE".data, "ONESIZE".data, "OS".data,
   "S/M".data, "M/L".data, "L/XL".data]

/-- Exactly two digit characters whose value lies in [20, 60]. -/
def twoDigitInRange (t : Str) : Bool :=
  match t with
  | [a, b] =>
    a.isDigit && b.isDigit &&
    decide (20 ≤ 10 * (a.toNat - 48) + (b.toNat - 48)) &&
    decide (10 * (a.toNat - 48) + (b.toNat - 48) ≤ 60)
  | _ => false

/-- is_valid_size_token: accept the trimmed upper-cased token when it (or
its space-removed form) is in the vocabulary, or when it is two digits in
[20, 60]. -/
def is_valid_size_token (token : Str) : Bool :=
  let t := upperStr (pyStrip token)
  if t.isEmpty then false
  else if VALID_SIZE_WORDS.contains t then true
  else if VALID_SIZE_WORDS.contains (replaceAll [' '] [] t) then true
  else twoDigitInRange t

/-- Lexicographic string order by code point, as Python string sorting. -/
def lexLeB : Str → Str → Bool
  | [], _ => true
  | _ :: _, [] => false
  | x :: xs, y :: ys => if x = y then lexLeB xs ys else decide (x < y)

/-- The size aggregation of extract_raw_product_data: keep the valid
tokens, normalize each to its stripped upper-cased form, deduplicate as a
set and sort — sorted(list(sizes)). -/
def collectSizes (tokens : List Str) : List Str :=
  List.insertionSort (fun a b => lexLeB a b = true)
    (((tokens.filter is_valid_size_token).map fun t => upperStr (pyStrip t)).dedup)

/-- The fixed URL blocklist IMAGE_BLOCKLIST. -/
def IMAGE_BLOCKLIST : List Str :=
  ["visa".data, "mastercard".data, "maestro".data, "amex".data,
   "americanexpress".data, "paypal".data, "klarna".data, "afterpay".data,
   "clearpay".data, "trustpilot".data, "applepay".data, "googlepay".data,
   "payment".data, "secure".data,
   "facebook".data, "instagram".data, "youtube".data, "tiktok".data,
   "twitter".data, "x-logo".data,
   "logo".data, "sprite".data, "icon".data, "favicon".data,
   "placeholder".data, "noimage".data,
   "search".data, "menu".data, "hamburger".data, "cart".data,
   "basket".data, "bag".data, "close".data,
   "arrow".data, "chevron".data, "caret".data, "scroll".data, "slider".data,
   "banner".data, "promo".data, "offer".data, "ads".data, "advert".data,
   "footer".data, "header".data,
   "flag".data, "country-".data]

/-- The fixed PRODUCT_KEYWORDS list. -/
def PRODUCT_KEYWORDS : List Str :=
  ["product".data, "pdp".data, "gallery".data, "image".data, "main".data,
   "hero".data,
   "shoe".data, "trainer".data, "sneaker".data, "boot".data,
   "jacket".data, "coat".data, "hoodie".data, "tee".data, "t-shirt".data,
   "shirt".data,
   "dress".data, "skirt".data, "trouser".data, "shorts".data, "jeans".data,
   "pant".data,
   "bag".data, "cap".data, "hat".data, "backpack".data]

/-- The recognized image extensions IMAGE_EXTS. -/
def IMAGE_EXTS : List Str :=
  [".jpg".data, ".jpeg".data, ".png".data, ".webp".data, ".avif".data,
   ".gif".data]

/-- The non-image asset extensions of the filter. -/
def NON_IMAGE_EXTS : List Str :=
  [".css".data, ".js".data, ".json".data, ".svg".data]

/-- The per-element signal record the in-page evaluation returns: resolved
URL, natural-or-layout size, alt text, class name, picture-container flag,
vertical offset. -/
structure ImgInfo where
  src : Str
  width : Nat
  height : Nat
  alt : Str
  className : Str
  inPicture : Bool
  top : Int

/-- A scored candidate image. -/
structure Cand where
  score : Nat
  area : Nat
  src : Str
  deriving DecidableEq

/-- A character of an [a-z0-9]+ token run. -/
def runToken (c : Char) : Bool := ('a' ≤ c && c ≤ 'z') || c.isDigit

/-- Fuel-bounded extraction of maximal [a-z0-9]+ runs. -/
def runsAux : Nat → Str → List Str
  | 0, _ => []
  | _ + 1, [] => []
  | fu + 1, c :: t =>
    if runToken c then
      (c :: t.takeWhile runToken) :: runsAux fu (t.dropWhile runToken)
    else runsAux fu t

/-- re.findall(r"[a-z0-9]+", s.lower()): the token runs of a string. -/
def tokensOf (s : Str) : List Str := runsAux s.length (lowerStr s)

/-- Size of the intersection of two token sets. -/
def interCount (xs ys : List Str) : Nat :=
  (xs.dedup.filter fun x => ys.contains x).length

/-- Whether any product keyword occurs as a substring. -/
def anyKeyword (s : Str) : Bool := PRODUCT_KEYWORDS.any fun k => hasSub k s

/-- The additive candidate score of extract_images_from_page, over the
lowered alt text, class name and source URL. -/
def scoreOf (slugT titleT : List Str) (area : Nat) (alt cls : Str)
    (inPic : Bool) (top : Int) (srcL : Str) : Nat :=
  let base :=
    if area ≥ 800 * 800 then 8
    else if area ≥ 600 * 600 then 6
    else if area ≥ 400 * 400 then 4
    else if area ≥ 200 * 200 then 2
    else if anyKeyword alt || anyKeyword cls then 1 else 0
  let nameT := tokensOf srcL
  base + (if inPic then 3 else 0) + (if anyKeyword alt then 2 else 0) +
    (if anyKeyword cls then 2 else 0) +
    (if -200 ≤ top ∧ top ≤ 1600 then 1 else 0) +
    (if 2 ≤ interCount nameT slugT then 2 else 0) +
    (if 1 ≤ interCount nameT titleT then 1 else 0)

/-- Normalize a protocol-relative URL to https. -/
def normSrc (s : Str) : Str :=
  if startsWith "//".data s then "https:".data ++ s else s

/-- Whether a lowered URL contains a blocklisted substring. -/
def blockListed (srcL : Str) : Bool := IMAGE_BLOCKLIST.any fun b => hasSub b srcL

/-- The non-image filter: drop a URL only when it carries no recognized
image extension anywhere but does contain a stylesheet/script extension. -/
def extSkip (srcL : Str) : Bool :=
  !(IMAGE_EXTS.any fun e => endsWith e srcL) &&
  !(IMAGE_EXTS.any fun e => hasSub e srcL) &&
  (NON_IMAGE_EXTS.any fun e => hasSub e srcL)

/-- The candidate-collection loop of extract_images_from_page: skip empty
sources, normalize, require an absolute URL, apply the blocklist and the
extension filter, deduplicate by exact URL, and score the survivors in
document order. -/
def buildCands (slugT titleT : List Str) : List ImgInfo → List Str → List Cand
  | [], _ => []
  | i :: rest, seen =>
    if i.src.isEmpty then buildCands slugT titleT rest seen
    else
      let s := normSrc i.src
      if !startsWith "http".data s then buildCands slugT titleT rest seen
      else
        let sl := lowerStr s
        if blockListed sl then buildCands slugT titleT rest seen
        else if extSkip sl then buildCands slugT titleT rest seen
        else if seen.contains s then buildCands slugT titleT rest seen
        else
          { score := scoreOf slugT titleT (i.width * i.height)
              (lowerStr i.alt) (lowerStr i.className) i.inPicture i.top sl,
            area := i.width * i.height, src := s } ::
            buildCands slugT titleT rest (s :: seen)

/-- The sort order of the candidate list: score descending, then area
descending — sort(key=(score, area), reverse=True). -/
def candBefore (a b : Cand) : Prop :=
  b.score < a.score ∨ (a.score = b.score ∧ b.area ≤ a.area)

instance : DecidableRel candBefore := fun a b => by
  unfold candBefore; infer_instance

instance : IsTotal Cand candBefore := by
  constructor
  intro a b
  unfold candBefore
  omega

instance : IsTrans Cand candBefore := by
  constructor
  intro a b c hab hbc
  unfold candBefore at *
  omega

/-- The stable descending sort of the candidates (Python list.sort is
stable, also with reverse=True). -/
def sortCands (cs : List Cand) : List Cand := List.insertionSort candBefore cs

/-- The candidates surviving filtering, in document order, scored against
the URL slug and title tokens. -/
def survivors (infos : List ImgInfo) (url title : Str) : List Cand :=
  buildCands (tokensOf (lastSeg '/' (takeUntilChar '?' url))) (tokensOf title)
    infos []

/-- extract_images_from_page, over the already-collected element signals
(the in-page DOM query is the external automation collaborator): rank the
surviving candidates and return the top 10 positively-scored URLs, or the
top 5 overall when none scores positive. -/
def extract_images_from_page (infos : List ImgInfo) (url title : Str) : List Str :=
  let cands := survivors infos url title
  let sorted := sortCands cands
  if cands.isEmpty then []
  else
    let positive := (sorted.filter fun c => 0 < c.score).map Cand.src
    if !positive.isEmpty then positive.take 10
    else (sorted.map Cand.src).take 5

/-- The raw extraction record assembled by extract_raw_product_data. -/
structure RawProduct where
  raw_title : Option Str
  raw_brand : Option Str
  raw_price : Option Str
  raw_description : Option Str
  raw_images : List Str
  raw_sizes : List Str
  url : Str

/-- Truthiness of an optional string field of the raw record. -/
def optTruthy : Option Str → Bool
  | none => false
  | some s => !s.isEmpty

/-- The currency inference of clean_product_data: currency symbols in the
raw price (€ then $ then £), else host fragments (.co.uk anywhere or a .uk
suffix give GBP; .de/.fr/.es/.it anywhere give EUR), else the GBP default. -/
def inferCurrency (raw : RawProduct) : Str :=
  let priceStr := raw.raw_price.getD []
  if hasSub ['€'] priceStr then "EUR".data
  else if hasSub ['$'] priceStr then "USD".data
  else if hasSub ['£'] priceStr then "GBP".data
  else
    let host := hostnameOf raw.url
    if hasSub ".co.uk".data host || endsWith ".uk".data host then "GBP".data
    else if [".de".data, ".fr".data, ".es".data, ".it".data].any
        (fun t => hasSub t host) then "EUR".data
    else "GBP".data

/-- The allowed style vocabulary ALLOWED_STYLE_TAGS. -/
def ALLOWED_STYLE_TAGS : List Str :=
  ["#streetwear".data, "#athleisure".data, "#vintageStreet".data,
   "#techwear".data, "#minimalist".data, "#loudGraphic".data,
   "#hypebeast".data, "#y2k".data, "#skater".data]

/-- The inner loop of the style-tag filter: append the canonical allowed
tag on a case-insensitive match when not already present. -/
def allowedLoop (t : Str) : List Str → List Str → List Str
  | [], acc => acc
  | a :: more, acc =>
    if lowerStr t = lowerStr a ∧ ¬ acc.contains a = true then
      allowedLoop t more (acc ++ [a])
    else allowedLoop t more acc

/-- The style-tag filter loop: non-strings are skipped, strings are
stripped and matched case-insensitively against the vocabulary. -/
def filterTagsAux : List Json → List Str → List Str
  | [], acc => acc
  | t :: rest, acc =>
    match t with
    | Json.str s => filterTagsAux rest (allowedLoop (pyStrip s) ALLOWED_STYLE_TAGS acc)
    | _ => filterTagsAux rest acc

/-- Filter a style_tags list to the allowed vocabulary. -/
def pyFilterTags (ts : List Json) : List Str := filterTagsAux ts []

/-- The style-tag step of clean_product_data: a falsy (or missing)
style_tags value is treated as an empty list; a list value is filtered
and written back; a truthy non-list value is left untouched. -/
def styleStep (c : JsonObj) : JsonObj :=
  let tv := (dget c "style_tags".data).getD Json.null
  let tv := if jtruthy tv then tv else Json.arr []
  match tv with
  | Json.arr ts => dset c "style_tags".data (Json.arr ((pyFilterTags ts).map Json.str))
  | _ => c

/-- The ground-truth re-assertion block of clean_product_data: overwrite
product_name, brand, price, product_url, image_url and sizes_available
from the raw record whenever the raw field is truthy. -/
def groundTruthStep (raw : RawProduct) (cleaned : JsonObj) : JsonObj :=
  let c := if optTruthy raw.raw_title then
    dset cleaned "product_name".data (Json.str (raw.raw_title.getD [])) else cleaned
  let c := if optTruthy raw.raw_brand then
    dset c "brand".data (Json.str (raw.raw_brand.getD [])) else c
  let c := if optTruthy raw.raw_price then
    dset c "price".data (Json.str (raw.raw_price.getD [])) else c
  let c := if !raw.url.isEmpty then
    dset c "product_url".data (Json.str raw.url) else c
  let c := if !raw.raw_images.isEmpty then
    dset c "image_url".data (Json.str (raw.raw_images.headD [])) else c
  if !raw.raw_sizes.isEmpty then
    dset c "sizes_available".data (Json.arr (raw.raw_sizes.map Json.str)) else c

/-- The currency step of clean_product_data: keep a truthy currency,
otherwise fill the inferred one. -/
def currencyStep (raw : RawProduct) (c : JsonObj) : JsonObj :=
  if jtruthyOpt (dget c "currency".data) then c
  else dset c "currency".data (Json.str (inferCurrency raw))

/-- The deterministic post-response stage of clean_product_data: given the
raw record and the parsed enrichment response object, re-assert the
ground-truth fields, fill the currency and filter the style tags.  (The
prompt construction and the model call are the external enrichment
collaborator; a response that fails to parse yields no record and never
reaches this stage.) -/
def clean_product_data (raw : RawProduct) (cleaned : JsonObj) : JsonObj :=
  styleStep (currencyStep raw (groundTruthStep raw cleaned))

/-- The category vocabulary of the server boundary. -/
def VALID_CATEGORY : List Str :=
  ["top".data, "bottom".data, "outerwear".data, "footwear".data,
   "full_body".data, "accessory".data]

/-- The gender vocabulary of the server boundary. -/
def VALID_GENDER : List Str :=
  ["masculine".data, "feminine".data, "unisex".data]

/-- Whether a looked-up value is a string of the given vocabulary (the
Python membership test data.get(k) in VALID_SET). -/
def enumOk (vocab : List Str) : Option Json → Bool
  | some (Json.str c) => vocab.contains c
  | _ => false

/-- The scrape endpoint boundary on a successfully cleaned record: attach
scraped_at and source_domain (request time and host, passed in as the
request-scoped inputs they are), then clear category and gender_target
when outside their vocabularies. -/
def scrape (d : JsonObj) (now host : Str) : JsonObj :=
  let d := dset d "scraped_at".data (Json.str now)
  let d := dset d "source_domain".data (Json.str host)
  let d := if enumOk VALID_CATEGORY (dget d "category".data) then d
    else dset d "category".data Json.null
  if enumOk VALID_GENDER (dget d "gender_target".data) then d
  else dset d "gender_target".data Json.null

theorem dget_dset (d : JsonObj) (k k2 : Str) (v : Json) :
    dget (dset d k v) k2 = if k = k2 then some v else dget d k2 := by
  induction d with
  | nil => simp [dset, dget]
  | cons kv rest ih =>
    obtain ⟨k3, v3⟩ := kv
    by_cases h3 : k3 = k
    · subst h3
      by_cases h2 : k3 = k2 <;> simp [dset, dget, h2]
    · by_cases h2 : k3 = k2
      · subst h2
        have hd : dset ((k3, v3) :: rest) k v = (k3, v3) :: dset rest k v := by
          simp [dset, h3]
        rw [hd]
        simp [dget]
        rw [if_neg fun h => h3 h.symm]
      · simp [dset, dget, h3, h2, ih]

theorem dget_ite (P : Prop) [Decidable P] (a b : JsonObj) (k : Str) :
    dget (if P then a else b) k = if P then dget a k else dget b k := by
  split <;> rfl

theorem dget_styleStep_of_ne (c : JsonObj) (k : Str)
    (h : ("style_tags".data : Str) ≠ k) : dget (styleStep c) k = dget c k := by
  simp only [styleStep]
  split <;> simp [dget_dset, h]

theorem dget_styleStep_product_name (c : JsonObj) :
    dget (styleStep c) "product_name".data = dget c "product_name".data :=
  dget_styleStep_of_ne c _ (by decide)

theorem dget_styleStep_brand (c : JsonObj) :
    dget (styleStep c) "brand".data = dget c "brand".data :=
  dget_styleStep_of_ne c _ (by decide)

theorem dget_styleStep_price (c : JsonObj) :
    dget (styleStep c) "price".data = dget c "price".data :=
  dget_styleStep_of_ne c _ (by decide)

theorem dget_styleStep_product_url (c : JsonObj) :
    dget (styleStep c) "product_url".data = dget c "product_url".data :=
  dget_styleStep_of_ne c _ (by decide)

theorem dget_styleStep_image_url (c : JsonObj) :
    dget (styleStep c) "image_url".data = dget c "image_url".data :=
  dget_styleStep_of_ne c _ (by decide)

theorem dget_styleStep_sizes (c : JsonObj) :
    dget (styleStep c) "sizes_available".data = dget c "sizes_available".data :=
  dget_styleStep_of_ne c _ (by decide)

theorem dget_styleStep_currency (c : JsonObj) :
    dget (styleStep c) "currency".data = dget c "currency".data :=
  dget_styleStep_of_ne c _ (by decide)

theorem dget_styleStep_description (c : JsonObj) :
    dget (styleStep c) "description".data = dget c "description".data :=
  dget_styleStep_of_ne c _ (by decide)

theorem enumOk_true_elim (vocab : List Str) (v : Option Json)
    (h : enumOk vocab v = true) :
    ∃ c, c ∈ vocab ∧ v = some (Json.str c) := by
  match v with
  | none => simp [enumOk] at h
  | some Json.null => simp [enumOk] at h
  | some (Json.bool _) => simp [enumOk] at h
  | some (Json.num _) => simp [enumOk] at h
  | some (Json.str c) =>
    refine ⟨c, ?_, rfl⟩
    simpa [enumOk, List.contains] using h
  | some (Json.arr _) => simp [enumOk] at h
  | some (Json.obj _) => simp [enumOk] at h

/-- C9: every record leaving the scrape endpoint has category in the
6-value vocabulary or null and gender_target in the 3-value vocabulary or
null, and a value outside the vocabulary is cleared to null at the
boundary. -/
theorem scrape_enum_enforcement (d : JsonObj) (now host : Str) :
    (dget (scrape d now host) "category".data = some Json.null ∨
      ∃ c, c ∈ VALID_CATEGORY ∧
        dget (scrape d now host) "category".data = some (Json.str c)) ∧
    (dget (scrape d now host) "gender_target".data = some Json.null ∨
      ∃ g, g ∈ VALID_GENDER ∧
        dget (scrape d now host) "gender_target".data = some (Json.str g)) ∧
    (enumOk VALID_CATEGORY (dget d "category".data) = false →
      dget (scrape d now host) "category".data = some Json.null) ∧
    (enumOk VALID_GENDER (dget d "gender_target".data) = false →
      dget (scrape d now host) "gender_target".data = some Json.null) := by
  have hc : dget (scrape d now host) "category".data =
      if enumOk VALID_CATEGORY (dget d "category".data)
      then dget d "category".data else some Json.null := by
    simp [scrape, dget_ite, dget_dset]
  have hg : dget (scrape d now host) "gender_target".data =
      if enumOk VALID_GENDER (dget d "gender_target".data)
      then dget d "gender_target".data else some Json.null := by
    simp [scrape, dget_ite, dget_dset]
  refine ⟨?_, ?_, fun h => ?_, fun h => ?_⟩
  · rw [hc]
    by_cases h : enumOk VALID_CATEGORY (dget d "category".data) = true
    · obtain ⟨c, hcm, hv⟩ := enumOk_true_elim _ _ h
      rw [if_pos h, hv]
      exact Or.inr ⟨c, hcm, rfl⟩
    · rw [if_neg h]
      exact Or.inl rfl
  · rw [hg]
    by_cases h : enumOk VALID_GENDER (dget d "gender_target".data) = true
    · obtain ⟨g, hgm, hv⟩ := enumOk_true_elim _ _ h
      rw [if_pos h, hv]
      exact Or.inr ⟨g, hgm, rfl⟩
    · rw [if_neg h]
      exact Or.inl rfl
  · rw [hc, if_neg (by simp [h])]
  · rw [hg, if_neg (by simp [h])]

/-- C9 witness: a record with category "weird" and no gender_target is
cleared to null on both fields. -/
theorem scrape_enum_enforcement_witness :
    dget (scrape [("category".data, Json.str "weird".data)] "t".data "h".data)
      "category".data = some Json.null ∧
    dget (scrape [("category".data, Json.str "weird".data)] "t".data "h".data)
      "gender_target".data = some Json.null := by
  have h := scrape_enum_enforcement
    [("category".data, Json.str "weird".data)] "t".data "h".data
  exact ⟨h.2.2.1 (by decide), h.2.2.2 (by decide)⟩

/-- A page whose JSON-LD brand is a list — a value that is neither a
string nor an object. -/
def exHtmlBrandList : Str :=
  "<script type=\"application/ld+json\">\x7b\"brand\": [\"Nike\"]\x7d</script>".data

/-- C10: a JSON-LD brand that is neither a string nor an object (here a
list) is returned as-is by extract_brand_from_jsonld, and detect_brand
then calls .strip() on it — an AttributeError that aborts the pipeline
instead of yielding absence or the fallback. -/
theorem detect_brand_raises_on_list_brand :
    extract_brand_from_jsonld exHtmlBrandList = Json.arr [Json.str "Nike".data] ∧
    detect_brand "https://example.com/p".data exHtmlBrandList = Except.error () :=
  ⟨rfl, rfl⟩

/-- C4 counterexample: host uk.com is syntactically valid and the page has
no JSON-LD brand, yet the domain fallback strips the whole first segment
and detect_brand returns the empty string. -/
theorem detect_brand_empty_counterexample :
    extract_brand_from_jsonld [] = Json.null ∧
    detect_brand "http://uk.com/p".data [] = Except.ok [] :=
  ⟨rfl, rfl⟩

theorem mem_replaceAllAux (pat rep : Str) (c : Char) (hpat : c ∉ pat) :
    ∀ (fu : Nat) (s : Str), s.length ≤ fu → c ∈ s →
      c ∈ replaceAllAux pat rep fu s := by
  intro fu
  induction fu with
  | zero =>
    intro s hl hc
    cases s with
    | nil => simp at hc
    | cons a t => simp at hl
  | succ fu ih =>
    intro s hl hc
    cases s with
    | nil => simp at hc
    | cons a t =>
      simp only [replaceAllAux]
      split
      · rename_i hcond
        rw [Bool.and_eq_true] at hcond
        have hpre : pat <+: (a :: t) := by
          have h1 := hcond.1
          simpa [startsWith] using h1
        have hplen : 1 ≤ pat.length := by
          have h2 := hcond.2
          cases pat with
          | nil => simp at h2
          | cons p q => simp
        obtain ⟨rest, hrest⟩ := hpre
        have hcrest : c ∈ rest := by
          have hcr : c ∈ pat ++ rest := by rw [hrest]; exact hc
          rcases List.mem_append.mp hcr with h | h
          · exact absurd h hpat
          · exact h
        have hdrop : t.drop (pat.length - 1) = rest := by
          have hdl := congrArg (List.drop pat.length) hrest
          rw [List.drop_left] at hdl
          obtain ⟨m, hm⟩ := Nat.exists_eq_add_of_le hplen
          rw [hm] at hdl
          rw [Nat.add_comm 1 m, List.drop_succ_cons] at hdl
          rw [hm, Nat.add_sub_cancel_left]
          exact hdl.symm
        refine List.mem_append.mpr (Or.inr ?_)
        refine ih _ ?_ (by rw [hdrop]; exact hcrest)
        have hlen : pat.length + rest.length = t.length + 1 := by
          have := congrArg List.length hrest
          simpa using this
        rw [hdrop]
        simp only [List.length_cons] at hl
        omega
      · rcases List.mem_cons.mp hc with h | h
        · exact h ▸ List.mem_cons_self _ _
        · exact List.mem_cons_of_mem _
            (ih t (by simp only [List.length_cons] at hl; omega) h)

theorem mem_replaceAll (pat rep s : Str) (c : Char) (hpat : c ∉ pat)
    (hc : c ∈ s) : c ∈ replaceAll pat rep s :=
  mem_replaceAllAux pat rep c hpat s.length s (Nat.le_refl _) hc

theorem mem_dropWhile_of_pred_false (p : Char → Bool) (c : Char)
    (hp : p c = false) :
    ∀ l : Str, c ∈ l → c ∈ l.dropWhile p := by
  intro l
  induction l with
  | nil => simp
  | cons a t ih =>
    intro hc
    by_cases ha : p a = true
    · rw [List.dropWhile_cons_of_pos ha]
      rcases List.mem_cons.mp hc with h | h
      · rw [h] at hp; rw [hp] at ha; cases ha
      · exact ih h
    · rw [List.dropWhile_cons_of_neg ha]
      exact hc

theorem mem_pyStrip (s : Str) (c : Char) (hc : c ∈ s)
    (hsp : pyIsSpace c = false) : c ∈ pyStrip s := by
  unfold pyStrip
  rw [List.mem_reverse]
  apply mem_dropWhile_of_pred_false _ _ hsp
  rw [List.mem_reverse]
  exact mem_dropWhile_of_pred_false _ _ hsp _ hc

theorem pyTitle_ne_nil (s : Str) (h : s ≠ []) : pyTitle s ≠ [] := by
  cases s with
  | nil => exact absurd rfl h
  | cons a t =>
    simp only [pyTitle, pyTitleAux]
    split <;> simp

/-- C4 amended: when no JSON-LD brand is found the domain fallback always
returns normally (it never fails), and it is non-empty whenever the first
dot-segment of the www-stripped host keeps any non-whitespace character
outside the letters of the stripped fragments — but it can return the
empty string (see the counterexample). -/
theorem detect_brand_fallback (url html : Str)
    (h : jtruthy (extract_brand_from_jsonld html) = false) :
    detect_brand url html = Except.ok (domainFallback url) ∧
    (∀ c : Char,
      c ∈ takeUntilChar '.' (replaceAll "www.".data [] (hostnameOf url)) →
      pyIsSpace c = false →
      c ∉ (['u', 'k', 's', 'e', 'c', 'o', 'h', 'p'] : List Char) →
      domainFallback url ≠ []) := by
  constructor
  · simp [detect_brand, h]
  · intro c hmem hsp hfrag
    have hsub : ∀ ndl : Str, ndl ⊆ ['u', 'k', 's', 'e', 'c', 'o', 'h', 'p'] →
        c ∉ ndl := fun ndl hs hin => hfrag (hs hin)
    have h1 := mem_replaceAll "uk".data [] _ c (hsub _ (by decide)) hmem
    have h2 := mem_replaceAll "us".data [] _ c (hsub _ (by decide)) h1
    have h3 := mem_replaceAll "eu".data [] _ c (hsub _ (by decide)) h2
    have h4 := mem_replaceAll "co".data [] _ c (hsub _ (by decide)) h3
    have h5 := mem_replaceAll "shop".data [] _ c (hsub _ (by decide)) h4
    have h6 := mem_pyStrip _ c h5 hsp
    simp only [domainFallback]
    exact pyTitle_ne_nil _ (List.ne_nil_of_mem h6)

/-- C4 amended witness: for host asos.com the fallback runs and yields the
non-empty brand. -/
theorem detect_brand_fallback_witness :
    detect_brand "https://www.asos.com/x".data [] =
      Except.ok (domainFallback "https://www.asos.com/x".data) ∧
    domainFallback "https://www.asos.com/x".data ≠ [] := by
  have h := detect_brand_fallback "https://www.asos.com/x".data [] (by decide)
  exact ⟨h.1, h.2 'a' (by decide) (by decide) (by decide)⟩

/-- A raw record whose host contains ".de" as a substring although its
top-level domain is .com. -/
def rawDelta : RawProduct :=
  { raw_title := none, raw_brand := none, raw_price := none,
    raw_description := none, raw_images := [], raw_sizes := [],
    url := "https://www.delta.com/x".data }

/-- Modelled from the claim wording of C8 (not from the source): currency
by symbol priority, else by the host top-level domain — a UK domain gives
GBP, a .de/.fr/.es/.it domain gives EUR — else the configured default. -/
def claimCurrencyTld (raw : RawProduct) : Str :=
  let p := raw.raw_price.getD []
  if hasSub ['€'] p then "EUR".data
  else if hasSub ['$'] p then "USD".data
  else if hasSub ['£'] p then "GBP".data
  else
    let host := hostnameOf raw.url
    if endsWith ".uk".data host then "GBP".data
    else if [".de".data, ".fr".data, ".es".data, ".it".data].any
        (fun t => endsWith t host) then "EUR".data
    else "GBP".data

/-- C8 counterexample: for host www.delta.com (top-level domain .com) with
no symbol in the raw price, the code's substring test ".de" in host fires
and yields EUR, while the claim's TLD-based rule yields the GBP default. -/
theorem clean_currency_counterexample :
    dget (clean_product_data rawDelta []) "currency".data =
      some (Json.str "EUR".data) ∧
    claimCurrencyTld rawDelta = "GBP".data ∧
    ("EUR".data : Str) ≠ "GBP".data :=
  ⟨rfl, rfl, by decide⟩

/-- The spec's currency example: price £45.00 on host example.co.uk. -/
def rawPound : RawProduct :=
  { raw_title := none, raw_brand := none,
    raw_price := some "£45.00".data, raw_description := none,
    raw_images := [], raw_sizes := [],
    url := "https://example.co.uk/p".data }

/-- A raw price carrying both € and $ symbols. -/
def rawEuroDollar : RawProduct :=
  { raw_title := none, raw_brand := none,
    raw_price := some "€9 or $9".data, raw_description := none,
    raw_images := [], raw_sizes := [], url := [] }

/-- A symbol-free price on host www.desigual.com (".de" as substring). -/
def rawDesigual : RawProduct :=
  { raw_title := none, raw_brand := none, raw_price := none,
    raw_description := none, raw_images := [], raw_sizes := [],
    url := "https://www.desigual.com/x".data }

theorem dget_ite_dset (P : Prop) [Decidable P] (c : JsonObj) (k1 k : Str)
    (v : Json) (h : k1 ≠ k) :
    dget (if P then dset c k1 v else c) k = dget c k := by
  split
  · rw [dget_dset, if_neg h]
  · rfl

theorem dget_ite_dset_self (P : Prop) [Decidable P] (c : JsonObj) (k : Str)
    (v : Json) :
    dget (if P then dset c k v else c) k = if P then some v else dget c k := by
  split
  · rw [dget_dset, if_pos rfl]
  · rfl

theorem dget_groundTruth_of_ne (raw : RawProduct) (c : JsonObj) (k : Str)
    (h1 : ("product_name".data : Str) ≠ k) (h2 : ("brand".data : Str) ≠ k)
    (h3 : ("price".data : Str) ≠ k) (h4 : ("product_url".data : Str) ≠ k)
    (h5 : ("image_url".data : Str) ≠ k)
    (h6 : ("sizes_available".data : Str) ≠ k) :
    dget (groundTruthStep raw c) k = dget c k := by
  simp only [groundTruthStep]
  rw [dget_ite_dset _ _ _ _ _ h6, dget_ite_dset _ _ _ _ _ h5,
      dget_ite_dset _ _ _ _ _ h4, dget_ite_dset _ _ _ _ _ h3,
      dget_ite_dset _ _ _ _ _ h2, dget_ite_dset _ _ _ _ _ h1]

theorem dget_currencyStep_of_ne (raw : RawProduct) (c : JsonObj) (k : Str)
    (h : ("currency".data : Str) ≠ k) :
    dget (currencyStep raw c) k = dget c k := by
  simp only [currencyStep]
  split
  · rfl
  · rw [dget_dset, if_neg h]

theorem dget_currencyStep_currency (raw : RawProduct) (c : JsonObj) :
    dget (currencyStep raw c) "currency".data =
      if jtruthyOpt (dget c "currency".data) then dget c "currency".data
      else some (Json.str (inferCurrency raw)) := by
  simp only [currencyStep]
  split
  · rfl
  · rw [dget_dset, if_pos rfl]

/-- C8 amended: when the parsed response's currency is falsy the output
currency is the inferred one — symbols €/$/£ in priority order over the
raw price, else SUBSTRING host tests (".co.uk" anywhere or a ".uk" suffix
give GBP; ".de"/".fr"/".es"/".it" anywhere give EUR, not only as TLDs),
else the GBP default; a truthy response currency passes through.  The
spec's example (£45.00, example.co.uk) resolves to GBP; € wins over $; and
the substring semantics makes www.desigual.com resolve to EUR. -/
theorem clean_currency (raw : RawProduct) (resp : JsonObj) :
    dget (clean_product_data raw resp) "currency".data =
      (if jtruthyOpt (dget resp "currency".data)
       then dget resp "currency".data
       else some (Json.str (inferCurrency raw))) ∧
    inferCurrency rawPound = "GBP".data ∧
    inferCurrency rawEuroDollar = "EUR".data ∧
    inferCurrency rawDesigual = "EUR".data := by
  refine ⟨?_, rfl, rfl, rfl⟩
  show dget (styleStep (currencyStep raw (groundTruthStep raw resp)))
    "currency".data = _
  rw [dget_styleStep_currency, dget_currencyStep_currency,
      dget_groundTruth_of_ne raw resp _ (by decide) (by decide) (by decide)
        (by decide) (by decide) (by decide)]

theorem not_isEmpty_of_ne_nil {α : Type} {l : List α} (h : l ≠ []) :
    (!l.isEmpty) = true := by
  cases l with
  | nil => exact absurd rfl h
  | cons a t => rfl

/-- C1: the post-parse stage re-asserts every ground-truth field from the
raw record whenever the raw field is non-empty — product_name, brand,
price, product_url, the first raw image, and the sizes list — regardless
of what the parsed enrichment response contained for those fields. -/
theorem clean_ground_truth (raw : RawProduct) (resp : JsonObj) :
    (optTruthy raw.raw_title = true →
      dget (clean_product_data raw resp) "product_name".data =
        some (Json.str (raw.raw_title.getD []))) ∧
    (optTruthy raw.raw_brand = true →
      dget (clean_product_data raw resp) "brand".data =
        some (Json.str (raw.raw_brand.getD []))) ∧
    (optTruthy raw.raw_price = true →
      dget (clean_product_data raw resp) "price".data =
        some (Json.str (raw.raw_price.getD []))) ∧
    (raw.url ≠ [] →
      dget (clean_product_data raw resp) "product_url".data =
        some (Json.str raw.url)) ∧
    (raw.raw_images ≠ [] →
      dget (clean_product_data raw resp) "image_url".data =
        some (Json.str (raw.raw_images.headD []))) ∧
    (raw.raw_sizes ≠ [] →
      dget (clean_product_data raw resp) "sizes_available".data =
        some (Json.arr (raw.raw_sizes.map Json.str))) := by
  refine ⟨fun h => ?_, fun h => ?_, fun h => ?_, fun h => ?_, fun h => ?_,
    fun h => ?_⟩
  all_goals show dget (styleStep (currencyStep raw (groundTruthStep raw resp))) _ = _
  · rw [dget_styleStep_product_name, dget_currencyStep_of_ne _ _ _ (by decide)]
    simp only [groundTruthStep]
    rw [dget_ite_dset _ _ _ _ _ (by decide), dget_ite_dset _ _ _ _ _ (by decide),
        dget_ite_dset _ _ _ _ _ (by decide), dget_ite_dset _ _ _ _ _ (by decide),
        dget_ite_dset _ _ _ _ _ (by decide), if_pos h, dget_dset, if_pos rfl]
  · rw [dget_styleStep_brand, dget_currencyStep_of_ne _ _ _ (by decide)]
    simp only [groundTruthStep]
    rw [dget_ite_dset _ _ _ _ _ (by decide), dget_ite_dset _ _ _ _ _ (by decide),
        dget_ite_dset _ _ _ _ _ (by decide), dget_ite_dset _ _ _ _ _ (by decide),
        if_pos h, dget_dset, if_pos rfl]
  · rw [dget_styleStep_price, dget_currencyStep_of_ne _ _ _ (by decide)]
    simp only [groundTruthStep]
    rw [dget_ite_dset _ _ _ _ _ (by decide), dget_ite_dset _ _ _ _ _ (by decide),
        dget_ite_dset _ _ _ _ _ (by decide), if_pos h, dget_dset, if_pos rfl]
  · rw [dget_styleStep_product_url, dget_currencyStep_of_ne _ _ _ (by decide)]
    simp only [groundTruthStep]
    rw [dget_ite_dset _ _ _ _ _ (by decide), dget_ite_dset _ _ _ _ _ (by decide),
        if_pos (not_isEmpty_of_ne_nil h), dget_dset, if_pos rfl]
  · rw [dget_styleStep_image_url, dget_currencyStep_of_ne _ _ _ (by decide)]
    simp only [groundTruthStep]
    rw [dget_ite_dset _ _ _ _ _ (by decide),
        if_pos (not_isEmpty_of_ne_nil h), dget_dset, if_pos rfl]
  · rw [dget_styleStep_sizes, dget_currencyStep_of_ne _ _ _ (by decide)]
    simp only [groundTruthStep]
    rw [if_pos (not_isEmpty_of_ne_nil h), dget_dset, if_pos rfl]

/-- A fully-populated raw record for the ground-truth witnesses. -/
def rawFull : RawProduct :=
  { raw_title := some "Air Max 90".data, raw_brand := some "Nike".data,
    raw_price := some "£45.00".data,
    raw_description := some "actual desc".data,
    raw_images := ["https://cdn.x.com/a.jpg".data, "https://cdn.x.com/b.jpg".data],
    raw_sizes := ["29".data, "M".data, "S".data],
    url := "https://example.co.uk/p".data }

/-- An enrichment response that tries to rewrite every field. -/
def respRewrite : JsonObj :=
  [("product_name".data, Json.str "model name".data),
   ("brand".data, Json.str "model brand".data),
   ("price".data, Json.str "$1".data),
   ("description".data, Json.str "made up".data),
   ("product_url".data, Json.str "https://evil.example/".data),
   ("image_url".data, Json.str "https://evil.example/i.jpg".data),
   ("sizes_available".data, Json.arr [Json.str "XL".data]),
   ("currency".data, Json.str "USD".data)]

/-- C1 witness: on a fully-populated raw record the six ground-truth
fields all equal the raw values, whatever the response said. -/
theorem clean_ground_truth_witness :
    dget (clean_product_data rawFull respRewrite) "product_name".data =
      some (Json.str "Air Max 90".data) ∧
    dget (clean_product_data rawFull respRewrite) "price".data =
      some (Json.str "£45.00".data) ∧
    dget (clean_product_data rawFull respRewrite) "image_url".data =
      some (Json.str "https://cdn.x.com/a.jpg".data) := by
  have h := clean_ground_truth rawFull respRewrite
  exact ⟨h.1 (by decide), h.2.2.1 (by decide), h.2.2.2.2.1 (by decide)⟩

/-- The raw record of the description counterexample. -/
def rawDesc : RawProduct :=
  { raw_title := some "Tee".data, raw_brand := none, raw_price := none,
    raw_description := some "actual desc".data, raw_images := [],
    raw_sizes := [], url := [] }

/-- A response that rewrites the populated raw description. -/
def respDesc : JsonObj :=
  [("description".data, Json.str "made up".data),
   ("currency".data, Json.str "GBP".data)]

/-- C2 counterexample: the raw description is populated, yet the returned
record carries the response's rewritten description — description is not
among the re-asserted ground-truth fields. -/
theorem clean_description_counterexample :
    rawDesc.raw_description = some "actual desc".data ∧
    dget (clean_product_data rawDesc respDesc) "description".data =
      some (Json.str "made up".data) ∧
    (Json.str "made up".data) ≠ (Json.str "actual desc".data) := by
  refine ⟨rfl, rfl, ?_⟩
  simp

/-- C2 amended: the populated-field guarantee holds for the six enforced
ground-truth fields only; the description is never re-asserted — the
output description is exactly whatever the parsed response contained for
it, even when the raw description is populated. -/
theorem clean_populated_fields (raw : RawProduct) (resp : JsonObj) :
    dget (clean_product_data raw resp) "description".data =
      dget resp "description".data ∧
    (optTruthy raw.raw_title = true →
      dget (clean_product_data raw resp) "product_name".data =
        some (Json.str (raw.raw_title.getD []))) ∧
    (optTruthy raw.raw_brand = true →
      dget (clean_product_data raw resp) "brand".data =
        some (Json.str (raw.raw_brand.getD []))) ∧
    (optTruthy raw.raw_price = true →
      dget (clean_product_data raw resp) "price".data =
        some (Json.str (raw.raw_price.getD []))) ∧
    (raw.url ≠ [] →
      dget (clean_product_data raw resp) "product_url".data =
        some (Json.str raw.url)) ∧
    (raw.raw_images ≠ [] →
      dget (clean_product_data raw resp) "image_url".data =
        some (Json.str (raw.raw_images.headD []))) ∧
    (raw.raw_sizes ≠ [] →
      dget (clean_product_data raw resp) "sizes_available".data =
        some (Json.arr (raw.raw_sizes.map Json.str))) := by
  refine ⟨?_, fun h => ?_, fun h => ?_, fun h => ?_, fun h => ?_, fun h => ?_,
    fun h => ?_⟩
  all_goals show dget (styleStep (currencyStep raw (groundTruthStep raw resp))) _ = _
  · rw [dget_styleStep_description, dget_currencyStep_of_ne _ _ _ (by decide),
        dget_groundTruth_of_ne raw resp _ (by decide) (by decide) (by decide)
          (by decide) (by decide) (by decide)]
  · rw [dget_styleStep_product_name, dget_currencyStep_of_ne _ _ _ (by decide)]
    simp only [groundTruthStep]
    rw [dget_ite_dset _ _ _ _ _ (by decide), dget_ite_dset _ _ _ _ _ (by decide),
        dget_ite_dset _ _ _ _ _ (by decide), dget_ite_dset _ _ _ _ _ (by decide),
        dget_ite_dset _ _ _ _ _ (by decide), if_pos h, dget_dset, if_pos rfl]
  · rw [dget_styleStep_brand, dget_currencyStep_of_ne _ _ _ (by decide)]
    simp only [groundTruthStep]
    rw [dget_ite_dset _ _ _ _ _ (by decide), dget_ite_dset _ _ _ _ _ (by decide),
        dget_ite_dset _ _ _ _ _ (by decide), dget_ite_dset _ _ _ _ _ (by decide),
        if_pos h, dget_dset, if_pos rfl]
  · rw [dget_styleStep_price, dget_currencyStep_of_ne _ _ _ (by decide)]
    simp only [groundTruthStep]
    rw [dget_ite_dset _ _ _ _ _ (by decide), dget_ite_dset _ _ _ _ _ (by decide),
        dget_ite_dset _ _ _ _ _ (by decide), if_pos h, dget_dset, if_pos rfl]
  · rw [dget_styleStep_product_url, dget_currencyStep_of_ne _ _ _ (by decide)]
    simp only [groundTruthStep]
    rw [dget_ite_dset _ _ _ _ _ (by decide), dget_ite_dset _ _ _ _ _ (by decide),
        if_pos (not_isEmpty_of_ne_nil h), dget_dset, if_pos rfl]
  · rw [dget_styleStep_image_url, dget_currencyStep_of_ne _ _ _ (by decide)]
    simp only [groundTruthStep]
    rw [dget_ite_dset _ _ _ _ _ (by decide),
        if_pos (not_isEmpty_of_ne_nil h), dget_dset, if_pos rfl]
  · rw [dget_styleStep_sizes, dget_currencyStep_of_ne _ _ _ (by decide)]
    simp only [groundTruthStep]
    rw [if_pos (not_isEmpty_of_ne_nil h), dget_dset, if_pos rfl]

/-- C2 amended witness: the description passes through while brand is
re-asserted. -/
theorem clean_populated_fields_witness :
    dget (clean_product_data rawFull respRewrite) "description".data =
      some (Json.str "made up".data) ∧
    dget (clean_product_data rawFull respRewrite) "brand".data =
      some (Json.str "Nike".data) := by
  have h := clean_populated_fields rawFull respRewrite
  refine ⟨?_, h.2.2.1 (by decide)⟩
  rw [h.1]
  rfl

theorem twoDigitInRange_iff (t : Str) :
    twoDigitInRange t = true ↔ ∃ a b : Char, t = [a, b] ∧ a.isDigit = true ∧
      b.isDigit = true ∧ 20 ≤ 10 * (a.toNat - 48) + (b.toNat - 48) ∧
      10 * (a.toNat - 48) + (b.toNat - 48) ≤ 60 := by
  match t with
  | [] => simp [twoDigitInRange]
  | [a] => simp [twoDigitInRange]
  | a :: b :: c :: rest => simp [twoDigitInRange]
  | [a, b] =>
    constructor
    · intro h
      simp only [twoDigitInRange, Bool.and_eq_true, decide_eq_true_eq] at h
      exact ⟨a, b, rfl, h.1.1.1, h.1.1.2, h.1.2, h.2⟩
    · intro h
      obtain ⟨x, y, heq, h1, h2, h3, h4⟩ := h
      injection heq with ha hrest
      injection hrest with hb
      subst ha
      subst hb
      simp only [twoDigitInRange, Bool.and_eq_true, decide_eq_true_eq]
      exact ⟨⟨⟨h1, h2⟩, h3⟩, h4⟩

theorem containsStr_iff (l : List Str) (x : Str) :
    l.contains x = true ↔ x ∈ l :=
  List.elem_iff

/-- The claim's formulation of the size rule: the trimmed upper-cased
token (or its space-removed form) is in the fixed vocabulary, or it is
exactly two digits with value in [20, 60]. -/
def sizeTokenSpec (token : Str) : Prop :=
  upperStr (pyStrip token) ∈ VALID_SIZE_WORDS ∨
  replaceAll [' '] [] (upperStr (pyStrip token)) ∈ VALID_SIZE_WORDS ∨
  (∃ a b : Char, upperStr (pyStrip token) = [a, b] ∧ a.isDigit = true ∧
    b.isDigit = true ∧ 20 ≤ 10 * (a.toNat - 48) + (b.toNat - 48) ∧
    10 * (a.toNat - 48) + (b.toNat - 48) ≤ 60)

/-- C5: is_valid_size_token accepts a token exactly when the claim's rule
does, and the spec's example tokens "s", "M ", "29", "junk" normalize to
the sorted deduplicated set ["29", "M", "S"] with "junk" rejected. -/
theorem size_token_iff :
    (∀ token : Str, is_valid_size_token token = true ↔ sizeTokenSpec token) ∧
    collectSizes ["s".data, "M ".data, "29".data, "junk".data] =
      ["29".data, "M".data, "S".data] ∧
    is_valid_size_token "junk".data = false := by
  refine ⟨fun token => ?_, by decide, by decide⟩
  unfold is_valid_size_token sizeTokenSpec
  by_cases h0 : (upperStr (pyStrip token)).isEmpty
  · have ht0 : upperStr (pyStrip token) = [] := by
      cases hc : upperStr (pyStrip token)
      · rfl
      · rw [hc] at h0; simp at h0
    rw [ht0]
    simp only [List.isEmpty_nil, if_true]
    constructor
    · intro h; cases h
    · intro h
      rcases h with h | h | h
      · exact absurd h (by decide)
      · exact absurd h (by decide)
      · obtain ⟨a, b, heq, _⟩ := h
        cases heq
  · simp only [h0, Bool.false_eq_true, if_false]
    by_cases h1 : VALID_SIZE_WORDS.contains (upperStr (pyStrip token))
    · simp only [h1, if_true]
      constructor
      · intro _
        exact Or.inl ((containsStr_iff _ _).mp h1)
      · intro _
        trivial
    · simp only [h1, Bool.false_eq_true, if_false]
      by_cases h2 : VALID_SIZE_WORDS.contains
          (replaceAll [' '] [] (upperStr (pyStrip token)))
      · simp only [h2, if_true]
        constructor
        · intro _
          exact Or.inr (Or.inl ((containsStr_iff _ _).mp h2))
        · intro _
          trivial
      · simp only [h2, Bool.false_eq_true, if_false]
        rw [twoDigitInRange_iff]
        constructor
        · intro h
          exact Or.inr (Or.inr h)
        · intro h
          rcases h with h | h | h
          · exact absurd ((containsStr_iff _ _).mpr h) h1
          · exact absurd ((containsStr_iff _ _).mpr h) h2
          · exact h

/-- C5 witness: the rule accepts "29" (two digits in range). -/
theorem size_token_iff_witness : sizeTokenSpec "29".data :=
  (size_token_iff.1 "29".data).mp (by decide)

/-- Keep a read_price result only when it is Python-truthy (str() always
returns a string, so truthiness is non-emptiness). -/
def truthyStr : Option Str → Option Str
  | some p => if p.isEmpty then none else some p
  | none => none

/-- Spec-style formulation of the offers fallback on one parsed block: a
dict block reads the price of its offers value when that value is a dict;
an array block takes its first item with a truthy price; an offers value
that is itself an array is never read. -/
def offersSpecOf : Option Json → Option Str
  | some (Json.obj kvs) => truthyStr (read_price (Json.obj kvs))
  | some (Json.arr items) => items.findSome? fun it => truthyStr (read_price it)
  | _ => none

theorem ldOffersItems_eq (items : List Json) :
    ldOffersItems items = items.findSome? fun it => truthyStr (read_price it) := by
  induction items with
  | nil => rfl
  | cons it rest ih =>
    rw [List.findSome?_cons]
    simp only [ldOffersItems]
    cases hp : read_price it with
    | none => simp only [truthyStr]; exact ih
    | some p =>
      simp only [truthyStr]
      by_cases he : p.isEmpty
      · simp only [he, if_true, Bool.not_true, Bool.false_eq_true, if_false]
        exact ih
      · simp only [he, Bool.false_eq_true, if_false, Bool.not_false, if_true]

theorem ldOffersScan_eq (blocks : List (Option Json)) :
    ldOffersScan blocks = blocks.findSome? offersSpecOf := by
  induction blocks with
  | nil => rfl
  | cons b rest ih =>
    rw [List.findSome?_cons]
    match b with
    | none => exact ih
    | some Json.null => exact ih
    | some (Json.bool x) => exact ih
    | some (Json.num x) => exact ih
    | some (Json.str x) => exact ih
    | some (Json.obj kvs) =>
      simp only [ldOffersScan, offersSpecOf]
      cases hp : read_price (Json.obj kvs) with
      | none => simp only [truthyStr]; exact ih
      | some p =>
        simp only [truthyStr]
        by_cases he : p.isEmpty
        · simp only [he, if_true, Bool.not_true, Bool.false_eq_true, if_false]
          exact ih
        · simp only [he, Bool.false_eq_true, if_false, Bool.not_false, if_true]
    | some (Json.arr items) =>
      simp only [ldOffersScan, offersSpecOf]
      rw [← ldOffersItems_eq]
      cases hi : ldOffersItems items with
      | none => exact ih
      | some p => rfl

/-- C7 amended: the first regex match in the fixed pattern-list order
wins; when no pattern matches, the result is the first truthy offers.price
over the parsed JSON-LD blocks, where a block may be an object or an array
of objects but an offers value that is itself an array is never read
(yielding absence); when nothing matches the result is absence — the
function is total and never raises. -/
theorem extract_price_resolution (html : Str) :
    (∀ v, tryPatterns pricePatterns html = some v →
      extract_price_from_scripts html = some v) ∧
    (tryPatterns pricePatterns html = none →
      extract_price_from_scripts html =
        ((ldJsonBlocks html).map pyLoadsTwice).findSome? offersSpecOf) := by
  constructor
  · intro v hv
    simp only [extract_price_from_scripts, hv]
  · intro hn
    simp only [extract_price_from_scripts, hn]
    exact ldOffersScan_eq _

/-- A page whose only price signal is a JSON-LD block with offers as an
ARRAY of offer objects. -/
def exHtml7 : Str :=
  "<script type=\"application/ld+json\">\x7b\"offers\": [\x7b\"price\": 45\x7d]\x7d</script>".data

/-- The same page with offers as a single object. -/
def exHtml7b : Str :=
  "<script type=\"application/ld+json\">\x7b\"offers\": \x7b\"price\": 45\x7d\x7d</script>".data

/-- Modelled from the claim wording of C7 evaluated at the array page: the
claimed behavior returns the offers price "45". -/
theorem extract_price_offers_array_counterexample :
    tryPatterns pricePatterns exHtml7 = none ∧
    (ldJsonBlocks exHtml7).map pyLoadsTwice =
      [some (Json.obj [("offers".data,
        Json.arr [Json.obj [("price".data, Json.num 45)]])])] ∧
    claimPriceOf exHtml7 = some "45".data ∧
    extract_price_from_scripts exHtml7 = none :=
  ⟨rfl, rfl, rfl, rfl⟩

/-- C7 amended witness: with offers as an object the fallback fires and
returns "45". -/
theorem extract_price_resolution_witness :
    extract_price_from_scripts exHtml7b = some "45".data ∧
    ((ldJsonBlocks exHtml7b).map pyLoadsTwice).findSome? offersSpecOf =
      some "45".data := by
  have h := (extract_price_resolution exHtml7b).2 (by decide)
  rw [h]
  exact ⟨rfl, rfl⟩

/-- The canonical allowed form of one response tag, in spec form: a string
tag is stripped and matched case-insensitively against the vocabulary;
anything else is dropped. -/
def canonTag : Json → Option Str
  | Json.str s => ALLOWED_STYLE_TAGS.find? fun a => lowerStr (pyStrip s) == lowerStr a
  | _ => none

/-- Deduplication keeping the first occurrence of each element. -/
def firstDedup : List Str → List Str
  | [] => []
  | x :: t => x :: (firstDedup t).filter fun y => y != x

theorem allowedLoop_no_match (t : Str) (vs : List Str) (acc : List Str)
    (hm : ∀ a ∈ vs, ¬ lowerStr t = lowerStr a) :
    allowedLoop t vs acc = acc := by
  induction vs generalizing acc with
  | nil => rfl
  | cons a more ih =>
    simp only [allowedLoop]
    rw [if_neg fun hand => hm a (List.mem_cons_self _ _) hand.1]
    exact ih acc fun x hx => hm x (List.mem_cons_of_mem _ hx)

theorem allowedLoop_eq (t : Str) (vs : List Str) (acc : List Str)
    (hv : (vs.map lowerStr).Nodup) :
    allowedLoop t vs acc =
      match vs.find? (fun a => lowerStr t == lowerStr a) with
      | some a => if acc.contains a then acc else acc ++ [a]
      | none => acc := by
  induction vs generalizing acc with
  | nil => rfl
  | cons a more ih =>
    by_cases hm : lowerStr t = lowerStr a
    · rw [List.find?_cons_of_pos _ (by simp [hm])]
      have hnomatch : ∀ x ∈ more, ¬ lowerStr t = lowerStr x := by
        intro x hx hcx
        have hax : lowerStr a = lowerStr x := by rw [← hm, hcx]
        have := (List.nodup_cons.mp hv).1
        exact this (hax ▸ List.mem_map_of_mem lowerStr hx)
      by_cases hacc : acc.contains a = true
      · simp only [allowedLoop]
        rw [if_neg fun hand => hand.2 hacc]
        rw [allowedLoop_no_match t more acc hnomatch, if_pos hacc]
      · simp only [allowedLoop]
        rw [if_pos ⟨hm, hacc⟩]
        rw [allowedLoop_no_match t more _ hnomatch, if_neg hacc]
    · rw [List.find?_cons_of_neg _ (by simp [hm])]
      simp only [allowedLoop]
      rw [if_neg fun hand => hm hand.1]
      exact ih acc (List.nodup_cons.mp hv).2

theorem containsStr_eq_false {l : List Str} {x : Str} (h : x ∉ l) :
    l.contains x = false := by
  cases hc : l.contains x with
  | false => rfl
  | true => exact absurd ((containsStr_iff _ _).mp hc) h

theorem containsStr_append (l1 l2 : List Str) (y : Str) :
    (l1 ++ l2).contains y = (l1.contains y || l2.contains y) := by
  by_cases h1 : y ∈ l1
  · rw [(containsStr_iff _ _).mpr (List.mem_append.mpr (Or.inl h1)),
        (containsStr_iff _ _).mpr h1, Bool.true_or]
  · by_cases h2 : y ∈ l2
    · rw [(containsStr_iff _ _).mpr (List.mem_append.mpr (Or.inr h2)),
          (containsStr_iff _ _).mpr h2, containsStr_eq_false h1, Bool.false_or]
    · rw [containsStr_eq_false h1, containsStr_eq_false h2,
          containsStr_eq_false fun hx =>
            (List.mem_append.mp hx).elim h1 h2]
      rfl

theorem containsStr_singleton (a y : Str) : ([a] : List Str).contains y = (y == a) := by
  by_cases h : y = a
  · rw [(containsStr_iff _ _).mpr (by simp [h])]
    simp [h]
  · rw [containsStr_eq_false (by simp [h])]
    simp [h]

theorem filterTagsAux_eq (ts : List Json) :
    ∀ acc : List Str, filterTagsAux ts acc =
      acc ++ (firstDedup (ts.filterMap canonTag)).filter fun y => !acc.contains y := by
  induction ts with
  | nil =>
    intro acc
    simp [filterTagsAux, firstDedup]
  | cons t rest ih =>
    intro acc
    match t with
    | Json.null =>
      rw [show filterTagsAux (Json.null :: rest) acc = filterTagsAux rest acc from rfl,
          show (Json.null :: rest).filterMap canonTag = rest.filterMap canonTag from rfl]
      exact ih acc
    | Json.bool b =>
      rw [show filterTagsAux (Json.bool b :: rest) acc = filterTagsAux rest acc from rfl,
          show (Json.bool b :: rest).filterMap canonTag = rest.filterMap canonTag from rfl]
      exact ih acc
    | Json.num n =>
      rw [show filterTagsAux (Json.num n :: rest) acc = filterTagsAux rest acc from rfl,
          show (Json.num n :: rest).filterMap canonTag = rest.filterMap canonTag from rfl]
      exact ih acc
    | Json.arr xs =>
      rw [show filterTagsAux (Json.arr xs :: rest) acc = filterTagsAux rest acc from rfl,
          show (Json.arr xs :: rest).filterMap canonTag = rest.filterMap canonTag from rfl]
      exact ih acc
    | Json.obj kvs =>
      rw [show filterTagsAux (Json.obj kvs :: rest) acc = filterTagsAux rest acc from rfl,
          show (Json.obj kvs :: rest).filterMap canonTag = rest.filterMap canonTag from rfl]
      exact ih acc
    | Json.str s =>
      have hstep : filterTagsAux (Json.str s :: rest) acc =
          filterTagsAux rest (allowedLoop (pyStrip s) ALLOWED_STYLE_TAGS acc) := rfl
      rw [hstep, allowedLoop_eq _ _ _ (by decide)]
      have hfm : (Json.str s :: rest).filterMap canonTag =
          match ALLOWED_STYLE_TAGS.find? (fun a => lowerStr (pyStrip s) == lowerStr a) with
          | some a => a :: rest.filterMap canonTag
          | none => rest.filterMap canonTag := by
        rw [List.filterMap_cons]
        cases hf : canonTag (Json.str s) with
        | none =>
          simp only [canonTag] at hf
          rw [hf]
        | some a =>
          simp only [canonTag] at hf
          rw [hf]
      rw [hfm]
      cases hf : ALLOWED_STYLE_TAGS.find? (fun a => lowerStr (pyStrip s) == lowerStr a) with
      | none => exact ih acc
      | some a =>
        show filterTagsAux rest (if acc.contains a = true then acc else acc ++ [a]) =
          acc ++ (firstDedup (a :: rest.filterMap canonTag)).filter fun y =>
            !acc.contains y
        by_cases hacc : acc.contains a = true
        · rw [if_pos hacc, ih acc]
          have ha_mem : a ∈ acc := (containsStr_iff _ _).mp hacc
          rw [show firstDedup (a :: rest.filterMap canonTag) =
              a :: (firstDedup (rest.filterMap canonTag)).filter (fun y => y != a) from rfl]
          rw [List.filter_cons_of_neg (by simp [ha_mem])]
          rw [List.filter_filter]
          congr 1
          apply List.filter_congr
          intro y _
          by_cases hy : y ∈ acc
          · simp [hy]
          · have hne : y ≠ a := fun he => hy (he ▸ ha_mem)
            simp [hy, hne]
        · rw [if_neg hacc, ih (acc ++ [a])]
          show (acc ++ [a]) ++ _ =
            acc ++ (firstDedup (a :: rest.filterMap canonTag)).filter _
          rw [show firstDedup (a :: rest.filterMap canonTag) =
              a :: (firstDedup (rest.filterMap canonTag)).filter (fun y => y != a) from rfl]
          have hanm : a ∉ acc := fun hm => hacc ((containsStr_iff _ _).mpr hm)
          rw [List.filter_cons_of_pos (by simp [hanm])]
          rw [List.append_assoc, List.singleton_append]
          congr 1
          congr 1
          rw [List.filter_filter]
          apply List.filter_congr
          intro y _
          rw [containsStr_append]
          rw [containsStr_singleton]
          by_cases hy : y ∈ acc
          · simp [hy]
          · by_cases hya : y = a
            · simp [hy, hya]
            · simp [hy, hya, bne]

theorem pyFilterTags_eq (ts : List Json) :
    pyFilterTags ts = firstDedup (ts.filterMap canonTag) := by
  rw [show pyFilterTags ts = filterTagsAux ts [] from rfl, filterTagsAux_eq ts []]
  rw [List.nil_append]
  apply List.filter_eq_self.mpr
  intro y _
  rfl

theorem mem_firstDedup {y : Str} : ∀ {l : List Str}, y ∈ firstDedup l → y ∈ l := by
  intro l
  induction l with
  | nil => simp [firstDedup]
  | cons x t ih =>
    intro h
    rcases List.mem_cons.mp h with h1 | h2
    · exact h1 ▸ List.mem_cons_self _ _
    · exact List.mem_cons_of_mem _ (ih (List.mem_of_mem_filter h2))

theorem nodup_firstDedup : ∀ l : List Str, (firstDedup l).Nodup := by
  intro l
  induction l with
  | nil => exact List.nodup_nil
  | cons x t ih =>
    refine List.nodup_cons.mpr ⟨?_, ih.filter _⟩
    intro hx
    have := (List.mem_filter.mp hx).2
    simp at this

theorem canonTag_mem {t : Json} {a : Str} (h : canonTag t = some a) :
    a ∈ ALLOWED_STYLE_TAGS := by
  match t with
  | Json.null => cases h
  | Json.bool _ => cases h
  | Json.num _ => cases h
  | Json.arr _ => cases h
  | Json.obj _ => cases h
  | Json.str s =>
    simp only [canonTag] at h
    exact List.mem_of_find?_eq_some h

theorem nodup_subset_length {l L : List Str} (hn : l.Nodup)
    (hs : ∀ x ∈ l, x ∈ L) : l.length ≤ L.length := by
  have h1 : l.toFinset.card = l.length := List.toFinset_card_of_nodup hn
  have h2 : l.toFinset ⊆ L.toFinset := by
    intro x hx
    exact List.mem_toFinset.mpr (hs x (List.mem_toFinset.mp hx))
  have h3 := Finset.card_le_card h2
  have h4 := L.toFinset_card_le
  omega

theorem dget_styleStep_style_arr (c : JsonObj) (ts : List Json)
    (h : dget c "style_tags".data = some (Json.arr ts)) :
    dget (styleStep c) "style_tags".data =
      some (Json.arr ((pyFilterTags ts).map Json.str)) := by
  cases ts with
  | nil =>
    simp only [styleStep, h, Option.getD_some, jtruthy, List.isEmpty_nil,
      Bool.not_true, Bool.false_eq_true, if_false]
    rw [dget_dset, if_pos rfl]
  | cons t rest =>
    simp only [styleStep, h, Option.getD_some, jtruthy, List.isEmpty_cons,
      Bool.not_false, if_true]
    rw [dget_dset, if_pos rfl]

theorem dget_styleStep_style_falsy (c : JsonObj)
    (h : jtruthyOpt (dget c "style_tags".data) = false) :
    dget (styleStep c) "style_tags".data = some (Json.arr []) := by
  simp only [styleStep]
  cases hv : dget c "style_tags".data with
  | none =>
    simp only [Option.getD_none, jtruthy, Bool.false_eq_true, if_false]
    rw [dget_dset, if_pos rfl]
    rfl
  | some v =>
    rw [hv] at h
    simp only [jtruthyOpt] at h
    simp only [Option.getD_some, h, Bool.false_eq_true, if_false]
    match v with
    | Json.null => rw [dget_dset, if_pos rfl]; rfl
    | Json.bool b => rw [dget_dset, if_pos rfl]; rfl
    | Json.num n => rw [dget_dset, if_pos rfl]; rfl
    | Json.str s => rw [dget_dset, if_pos rfl]; rfl
    | Json.arr xs => rw [dget_dset, if_pos rfl]; rfl
    | Json.obj kvs => rw [dget_dset, if_pos rfl]; rfl

/-- The response of the style-tag counterexample: all nine allowed tags. -/
def respAllTags : JsonObj :=
  [("style_tags".data, Json.arr (ALLOWED_STYLE_TAGS.map Json.str))]

/-- C3 counterexample: a response echoing all nine allowed tags survives
the filter whole — the output style_tags has length 9, not at most 4. -/
theorem clean_style_tags_counterexample :
    dget (clean_product_data rawDesc respAllTags) "style_tags".data =
      some (Json.arr (ALLOWED_STYLE_TAGS.map Json.str)) ∧
    (pyFilterTags (ALLOWED_STYLE_TAGS.map Json.str)).length = 9 ∧
    ¬ (pyFilterTags (ALLOWED_STYLE_TAGS.map Json.str)).length ≤ 4 :=
  ⟨rfl, rfl, by decide⟩

/-- C3 amended: for a response whose style_tags value is a list (or is
falsy or missing, treated as the empty list), the output style_tags is the
canonical filtered list: every element is drawn from the allowed
vocabulary, there are no duplicates (case-insensitive ones included, since
all elements are the canonical allowed spellings), first-seen order is
preserved (the output is the first-seen deduplication of the
canonicalized input), and the length is bounded by the vocabulary size 9 —
there is NO cap at 4.  A truthy non-list style_tags value is left
untouched. -/
theorem clean_style_tags (raw : RawProduct) (resp : JsonObj) :
    (∀ ts, dget resp "style_tags".data = some (Json.arr ts) →
      dget (clean_product_data raw resp) "style_tags".data =
        some (Json.arr ((firstDedup (ts.filterMap canonTag)).map Json.str))) ∧
    (jtruthyOpt (dget resp "style_tags".data) = false →
      dget (clean_product_data raw resp) "style_tags".data =
        some (Json.arr ([] : List Json))) ∧
    (∀ ts : List Json, (∀ x ∈ pyFilterTags ts, x ∈ ALLOWED_STYLE_TAGS) ∧
      (pyFilterTags ts).Nodup ∧
      (pyFilterTags ts).length ≤ ALLOWED_STYLE_TAGS.length) := by
  have hpass : dget (currencyStep raw (groundTruthStep raw resp))
      "style_tags".data = dget resp "style_tags".data := by
    rw [dget_currencyStep_of_ne _ _ _ (by decide),
        dget_groundTruth_of_ne _ _ _ (by decide) (by decide) (by decide)
          (by decide) (by decide) (by decide)]
  refine ⟨fun ts hts => ?_, fun h => ?_, fun ts => ?_⟩
  · show dget (styleStep (currencyStep raw (groundTruthStep raw resp))) _ = _
    rw [dget_styleStep_style_arr _ ts (hpass.trans hts), pyFilterTags_eq]
  · show dget (styleStep (currencyStep raw (groundTruthStep raw resp))) _ = _
    exact dget_styleStep_style_falsy _ (by rw [hpass]; exact h)
  · refine ⟨fun x hx => ?_, ?_, ?_⟩
    · rw [pyFilterTags_eq] at hx
      obtain ⟨j, _, hj⟩ := List.mem_filterMap.mp (mem_firstDedup hx)
      exact canonTag_mem hj
    · rw [pyFilterTags_eq]
      exact nodup_firstDedup _
    · refine nodup_subset_length ?_ fun x hx => ?_
      · rw [pyFilterTags_eq]
        exact nodup_firstDedup _
      · rw [pyFilterTags_eq] at hx
        obtain ⟨j, _, hj⟩ := List.mem_filterMap.mp (mem_firstDedup hx)
        exact canonTag_mem hj

/-- The response of the C3 witness: mixed-case duplicate, a non-string
and an out-of-vocabulary tag. -/
def respMixedTags : JsonObj :=
  [("style_tags".data, Json.arr [Json.str " #STREETWEAR ".data, Json.num 3,
    Json.str "#streetwear".data, Json.str "#junk".data])]

/-- C3 amended witness: the mixed response filters to the single canonical
tag. -/
theorem clean_style_tags_witness :
    dget (clean_product_data rawDelta respMixedTags) "style_tags".data =
      some (Json.arr [Json.str "#streetwear".data]) := by
  have h := (clean_style_tags rawDelta respMixedTags).1
    [Json.str " #STREETWEAR ".data, Json.num 3, Json.str "#streetwear".data,
     Json.str "#junk".data] rfl
  rw [h]
  rfl

theorem buildCands_mem (slugT titleT : List Str) :
    ∀ (infos : List ImgInfo) (seen : List Str) (c : Cand),
      c ∈ buildCands slugT titleT infos seen →
      startsWith "http".data c.src = true ∧
      blockListed (lowerStr c.src) = false ∧ c.src ∉ seen := by
  intro infos
  induction infos with
  | nil =>
    intro seen c h
    simp [buildCands] at h
  | cons i rest ih =>
    intro seen c h
    simp only [buildCands] at h
    split at h
    · exact ih seen c h
    split at h
    · exact ih seen c h
    split at h
    · exact ih seen c h
    split at h
    · exact ih seen c h
    split at h
    · exact ih seen c h
    rename_i hemp hhttp hblock hext hseen
    rcases List.mem_cons.mp h with hc | hc
    · subst hc
      refine ⟨?_, ?_, ?_⟩
      · simp only [Bool.not_eq_true] at hhttp
        simpa using hhttp
      · simp only [Bool.not_eq_true] at hblock
        exact hblock
      · exact fun hm => hseen ((containsStr_iff _ _).mpr hm)
    · have := ih _ c hc
      exact ⟨this.1, this.2.1, fun hm =>
        this.2.2 (List.mem_cons_of_mem _ hm)⟩

theorem buildCands_nodup (slugT titleT : List Str) :
    ∀ (infos : List ImgInfo) (seen : List Str),
      ((buildCands slugT titleT infos seen).map Cand.src).Nodup := by
  intro infos
  induction infos with
  | nil =>
    intro seen
    simp [buildCands]
  | cons i rest ih =>
    intro seen
    simp only [buildCands]
    split
    · exact ih seen
    split
    · exact ih seen
    split
    · exact ih seen
    split
    · exact ih seen
    split
    · exact ih seen
    simp only [List.map_cons]
    refine List.nodup_cons.mpr ⟨?_, ih _⟩
    intro hmem
    obtain ⟨c, hc, hcs⟩ := List.mem_map.mp hmem
    have hni := (buildCands_mem slugT titleT rest _ c hc).2.2
    exact hni (hcs ▸ List.mem_cons_self _ _)

theorem isEmpty_false_of_ne {α : Type} {l : List α} (h : l ≠ []) :
    l.isEmpty = false := by
  cases l with
  | nil => exact absurd rfl h
  | cons a t => rfl

/-- C6: extract_images_from_page returns a deduplicated list of at most 10
absolute (http) URLs, none containing a blocklisted substring, drawn from
the surviving candidates and ordered by score descending then area
descending; when some survivor scores positive the result is the TOP (at
most 10) positively-scored URLs — it has length min 10 (number of
positive survivors) and every included candidate ranks at least as high
(score then area) as every excluded positive survivor; otherwise it is
the TOP 5 by area — length min 5 (number of survivors) and every included
candidate has area at least that of every excluded survivor; and the
result is non-empty whenever any candidate survived filtering. -/
theorem extract_images_ranked (infos : List ImgInfo) (url title : Str) :
    ∃ cs : List Cand,
      extract_images_from_page infos url title = cs.map Cand.src ∧
      List.Pairwise candBefore cs ∧
      (∀ c ∈ cs, c ∈ survivors infos url title) ∧
      (extract_images_from_page infos url title).length ≤ 10 ∧
      (extract_images_from_page infos url title).Nodup ∧
      (∀ u ∈ extract_images_from_page infos url title,
        startsWith "http".data u = true ∧ blockListed (lowerStr u) = false) ∧
      (survivors infos url title ≠ [] →
        extract_images_from_page infos url title ≠ []) ∧
      ((∃ c ∈ survivors infos url title, 0 < c.score) →
        (∀ c ∈ cs, 0 < c.score) ∧
        cs.length = min 10 ((survivors infos url title).countP
          fun c => decide (0 < c.score)) ∧
        (∀ c ∈ cs, ∀ d ∈ survivors infos url title, 0 < d.score →
          d ∉ cs → candBefore c d)) ∧
      ((∀ c ∈ survivors infos url title, c.score = 0) →
        cs.length = min 5 (survivors infos url title).length ∧
        List.Pairwise (fun a b => b.area ≤ a.area) cs ∧
        (∀ c ∈ cs, ∀ d ∈ survivors infos url title, d ∉ cs →
          d.area ≤ c.area)) := by
  have hperm : (sortCands (survivors infos url title)).Perm
      (survivors infos url title) := List.perm_insertionSort _ _
  have hsorted : List.Pairwise candBefore (sortCands (survivors infos url title)) :=
    List.sorted_insertionSort _ _
  have hnodup : ((survivors infos url title).map Cand.src).Nodup :=
    buildCands_nodup _ _ infos []
  have hnodup2 : ((sortCands (survivors infos url title)).map Cand.src).Nodup :=
    ((hperm.map Cand.src).nodup_iff).mpr hnodup
  have hmemp : ∀ c ∈ survivors infos url title,
      startsWith "http".data c.src = true ∧
      blockListed (lowerStr c.src) = false :=
    fun c hc => ⟨(buildCands_mem _ _ infos [] c hc).1,
      (buildCands_mem _ _ infos [] c hc).2.1⟩
  by_cases hemp : survivors infos url title = []
  · have hex : extract_images_from_page infos url title = [] := by
      simp only [extract_images_from_page, hemp, List.isEmpty_nil, if_true]
    refine ⟨[], by simpa using hex, List.Pairwise.nil, by simp, ?_, ?_, ?_,
      fun h => absurd hemp h, fun h => ?_, fun h => ?_⟩
    · rw [hex]
      simp
    · rw [hex]
      exact List.nodup_nil
    · rw [hex]
      simp
    · obtain ⟨c, hc, _⟩ := h
      rw [hemp] at hc
      cases hc
    · exact ⟨by simp [hemp], List.Pairwise.nil,
        fun c hc => absurd hc (List.not_mem_nil c)⟩
  · by_cases hfil : (sortCands (survivors infos url title)).filter
        (fun c => 0 < c.score) = []
    · have hex : extract_images_from_page infos url title =
          ((sortCands (survivors infos url title)).map Cand.src).take 5 := by
        simp only [extract_images_from_page, isEmpty_false_of_ne hemp,
          Bool.false_eq_true, if_false, hfil, List.map_nil, List.isEmpty_nil,
          Bool.not_true, if_false]
      refine ⟨(sortCands (survivors infos url title)).take 5, ?_, ?_, ?_, ?_,
        ?_, ?_, ?_, ?_, ?_⟩
      · rw [hex]
        exact (List.map_take _ _ _).symm
      · exact List.Pairwise.sublist (List.take_sublist _ _) hsorted
      · exact fun c hc => hperm.mem_iff.mp (List.take_subset _ _ hc)
      · rw [hex, List.length_take]
        omega
      · rw [hex]
        exact List.Nodup.sublist (List.take_sublist _ _) hnodup2
      · intro u hu
        rw [hex] at hu
        obtain ⟨c, hc, rfl⟩ := List.mem_map.mp (List.take_subset _ _ hu)
        exact hmemp c (hperm.mem_iff.mp hc)
      · intro _ h0
        rw [hex] at h0
        have h1 := congrArg List.length h0
        rw [List.length_take, List.length_map, hperm.length_eq] at h1
        have h2 : 0 < (survivors infos url title).length :=
          List.length_pos.mpr hemp
        simp only [List.length_nil] at h1
        omega
      · intro h
        obtain ⟨c, hc, hcs⟩ := h
        have hcs2 : c ∈ sortCands (survivors infos url title) :=
          hperm.mem_iff.mpr hc
        have hmf : c ∈ (sortCands (survivors infos url title)).filter
            (fun c => 0 < c.score) :=
          List.mem_filter.mpr ⟨hcs2, by simpa using hcs⟩
        rw [hfil] at hmf
        cases hmf
      · intro hz
        refine ⟨?_, ?_, ?_⟩
        · rw [List.length_take, hperm.length_eq]
        · refine List.Pairwise.imp_of_mem ?_
            (List.Pairwise.sublist (List.take_sublist _ _) hsorted)
          intro a b ha hb hab
          have hza := hz a (hperm.mem_iff.mp (List.take_subset _ _ ha))
          have hzb := hz b (hperm.mem_iff.mp (List.take_subset _ _ hb))
          rcases hab with h1 | h2
          · omega
          · exact h2.2
        · intro c hc d hd hdnot
          have hds : d ∈ sortCands (survivors infos url title) :=
            hperm.mem_iff.mpr hd
          have hdd : d ∈ (sortCands (survivors infos url title)).drop 5 := by
            have hsplit : d ∈ (sortCands (survivors infos url title)).take 5 ++
                (sortCands (survivors infos url title)).drop 5 := by
              rw [List.take_append_drop]
              exact hds
            rcases List.mem_append.mp hsplit with h1 | h2
            · exact absurd h1 hdnot
            · exact h2
          have happ : List.Pairwise candBefore
              ((sortCands (survivors infos url title)).take 5 ++
                (sortCands (survivors infos url title)).drop 5) := by
            rw [List.take_append_drop]
            exact hsorted
          have hcd := (List.pairwise_append.mp happ).2.2 c hc d hdd
          have hzc := hz c (hperm.mem_iff.mp (List.take_subset _ _ hc))
          have hzd := hz d hd
          rcases hcd with h1 | h2
          · omega
          · exact h2.2
    · have hmapne : ((sortCands (survivors infos url title)).filter
          (fun c => 0 < c.score)).map Cand.src ≠ [] := by
        intro h0
        exact hfil (List.map_eq_nil_iff.mp h0)
      have hex : extract_images_from_page infos url title =
          (((sortCands (survivors infos url title)).filter
            (fun c => 0 < c.score)).map Cand.src).take 10 := by
        simp only [extract_images_from_page, isEmpty_false_of_ne hemp,
          Bool.false_eq_true, if_false, isEmpty_false_of_ne hmapne,
          Bool.not_false, if_true]
      refine ⟨((sortCands (survivors infos url title)).filter
          (fun c => 0 < c.score)).take 10, ?_, ?_, ?_, ?_, ?_, ?_, ?_, ?_, ?_⟩
      · rw [hex]
        exact (List.map_take _ _ _).symm
      · exact List.Pairwise.sublist
          ((List.take_sublist _ _).trans (List.filter_sublist _))
          hsorted
      · exact fun c hc => hperm.mem_iff.mp
          (List.mem_of_mem_filter (List.take_subset _ _ hc))
      · rw [hex, List.length_take]
        omega
      · rw [hex]
        refine List.Nodup.sublist (List.take_sublist _ _) ?_
        exact List.Nodup.sublist (List.Sublist.map _ (List.filter_sublist _))
          hnodup2
      · intro u hu
        rw [hex] at hu
        obtain ⟨c, hc, rfl⟩ := List.mem_map.mp (List.take_subset _ _ hu)
        exact hmemp c (hperm.mem_iff.mp (List.mem_of_mem_filter hc))
      · intro _ h0
        rw [hex] at h0
        have h1 := congrArg List.length h0
        rw [List.length_take] at h1
        have h2 : 0 < (((sortCands (survivors infos url title)).filter
            (fun c => 0 < c.score)).map Cand.src).length :=
          List.length_pos.mpr hmapne
        simp only [List.length_nil] at h1
        omega
      · intro _
        refine ⟨?_, ?_, ?_⟩
        · intro c hc
          have h1 := List.mem_filter.mp (List.take_subset _ _ hc)
          simpa using h1.2
        · rw [List.length_take]
          congr 1
          rw [← List.countP_eq_length_filter]
          exact hperm.countP_eq _
        · intro c hc d hd hdpos hdnot
          have hdf : d ∈ (sortCands (survivors infos url title)).filter
              (fun c => 0 < c.score) :=
            List.mem_filter.mpr ⟨hperm.mem_iff.mpr hd, by simpa using hdpos⟩
          have hdd : d ∈ ((sortCands (survivors infos url title)).filter
              (fun c => 0 < c.score)).drop 10 := by
            have hsplit : d ∈ ((sortCands (survivors infos url title)).filter
                (fun c => 0 < c.score)).take 10 ++
                ((sortCands (survivors infos url title)).filter
                  (fun c => 0 < c.score)).drop 10 := by
              rw [List.take_append_drop]
              exact hdf
            rcases List.mem_append.mp hsplit with h1 | h2
            · exact absurd h1 hdnot
            · exact h2
          have hsf : List.Pairwise candBefore
              ((sortCands (survivors infos url title)).filter
                (fun c => 0 < c.score)) :=
            List.Pairwise.sublist (List.filter_sublist _) hsorted
          have happ : List.Pairwise candBefore
              (((sortCands (survivors infos url title)).filter
                  (fun c => 0 < c.score)).take 10 ++
                ((sortCands (survivors infos url title)).filter
                  (fun c => 0 < c.score)).drop 10) := by
            rw [List.take_append_drop]
            exact hsf
          exact (List.pairwise_append.mp happ).2.2 c hc d hdd
      · intro hz
        exfalso
        obtain ⟨c, hc⟩ := List.exists_mem_of_ne_nil _ hfil
        have h1 := List.mem_filter.mp hc
        have h2 : 0 < c.score := by simpa using h1.2
        have h3 := hz c (hperm.mem_iff.mp h1.1)
        omega

/-- The spec's example hero image: 900×900, inside a picture container,
alt "product hero", near the fold. -/
def imgHero : ImgInfo :=
  { src := "https://cdn.x.com/hero-product.jpg".data, width := 900,
    height := 900, alt := "product hero".data, className := [],
    inPicture := true, top := 100 }

/-- The spec's example thumbnail: 150×150 with no hints, far down. -/
def imgTiny : ImgInfo :=
  { src := "https://cdn.x.com/tiny.jpg".data, width := 150, height := 150,
    alt := [], className := [], inPicture := false, top := 2000 }

/-- C6 witness: on the spec's example signals the ranked result is
non-empty and within the length bound, and it is exactly the hero URL
(the only positively-scored candidate). -/
theorem extract_images_ranked_witness :
    extract_images_from_page [imgTiny, imgHero] "https://x.com/p".data [] ≠ [] ∧
    (extract_images_from_page [imgTiny, imgHero]
      "https://x.com/p".data []).length ≤ 10 ∧
    extract_images_from_page [imgTiny, imgHero] "https://x.com/p".data [] =
      ["https://cdn.x.com/hero-product.jpg".data] := by
  obtain ⟨cs, h1, h2, h3, h4, h5, h6, h7, h8, h9⟩ :=
    extract_images_ranked [imgTiny, imgHero] "https://x.com/p".data []
  exact ⟨h7 (by decide), h4, rfl⟩

/-- C8 amended witness: with an empty response the spec's example record
resolves to GBP through the inference chain. -/
theorem clean_currency_witness :
    dget (clean_product_data rawPound []) "currency".data =
      some (Json.str "GBP".data) := by
  have h := (clean_currency rawPound ([] : JsonObj)).1
  rw [h]
  rfl
